import Mathlib

/-!
Verification development for the study-protocol planning engine.

Shallow embedding of the deterministic planning core:
  * `app/agents/study_design.py` — design selection, washout, dropout;
  * `app/agents/sample_size.py` — reference tables, interpolation, run;
  * `app/utils/blood_sampling.py` — blood budget and sampling schedule.

Python floats are modelled as `ℚ`, Python ints as `ℤ`/`ℕ`, `None` as
`Option`.  Python code paths that can raise are modelled in
`Except String`; in particular, attribute access on the `DesignType`
enum of `app/models/design.py` is modelled by `designTypeAttr`, because
that enum declares only four members while `app/agents/study_design.py`
refers to six.
-/

/-- Design variants as referenced throughout `app/agents/study_design.py`.
`app/models/design.py` declares only the first four as enum members; the
two adaptive members are referenced by the agent but missing from the
enum (see `designTypeMemberNames` and `designTypeAttr`). -/
inductive DesignType where
  | crossover2x2
  | replicate3
  | replicate4
  | parallel
  | adaptiveCrossover
  | adaptiveParallel
deriving DecidableEq, Repr

/-- Member names actually declared by the `DesignType` enum in
`app/models/design.py` (lines 15-20). -/
def designTypeMemberNames : List String :=
  ["CROSSOVER_2X2", "REPLICATE_3", "REPLICATE_4", "PARALLEL"]

/-- Python attribute access `DesignType.<name>`: returns the member when it
is declared in `app/models/design.py`, raises `AttributeError` otherwise. -/
def designTypeAttr (name : String) : Except String DesignType :=
  if name = "CROSSOVER_2X2" then Except.ok DesignType.crossover2x2
  else if name = "REPLICATE_3" then Except.ok DesignType.replicate3
  else if name = "REPLICATE_4" then Except.ok DesignType.replicate4
  else if name = "PARALLEL" then Except.ok DesignType.parallel
  else Except.error ("AttributeError: " ++ name)

/-- Computable ceiling on `ℚ` (Python `math.ceil`); agrees with
`Int.ceil` (see `ratCeil_eq_ceil`) but reduces in the kernel. -/
def ratCeil (q : ℚ) : ℤ := -(Rat.floor (-q))

/-- Python `x is not None and x > c` for an optional float. -/
def optGT (x : Option ℚ) (c : ℚ) : Bool :=
  match x with
  | none => false
  | some v => decide (c < v)

/-- Python `x is not None and x >= c` for an optional float. -/
def optGE (x : Option ℚ) (c : ℚ) : Bool :=
  match x with
  | none => false
  | some v => decide (c ≤ v)

/-- `StudyDesignAgent._select_design` (study_design.py lines 120-150):
first-matching-rule-wins decision tree. -/
def select_design (cvIntra tHalf : Option ℚ) (isNti isHvd : Bool) : DesignType :=
  if optGT tHalf 24 then DesignType.parallel
  else if isNti then DesignType.replicate4
  else if isHvd || optGE cvIntra 30 then DesignType.replicate4
  else DesignType.crossover2x2

/-- `StudyDesignAgent._select_adaptive_design` (study_design.py lines 152-171);
`cv_intra`, `is_nti` and `is_hvd` are accepted but unused, as in the source. -/
def select_adaptive_design (_cvIntra tHalf : Option ℚ) (_isNti _isHvd : Bool) : DesignType :=
  if optGT tHalf 24 then DesignType.adaptiveParallel
  else DesignType.adaptiveCrossover

/-- `StudyDesignAgent._calculate_washout` (study_design.py lines 173-204),
exactly as written: the membership test on line 185 first resolves
`DesignType.PARALLEL` and `DesignType.ADAPTIVE_PARALLEL` (tuple
construction), so the missing enum member is accessed on every call.
Only the numeric days are modelled; the accompanying formula string is
presentational. -/
def calculate_washout_py (tHalf : Option ℚ) (design : DesignType) :
    Except String (Option ℤ) := do
  let p ← designTypeAttr "PARALLEL"
  let ap ← designTypeAttr "ADAPTIVE_PARALLEL"
  if design = p ∨ design = ap then
    return none
  else
    match tHalf with
    | none => return none
    | some t => return some (max 7 (ratCeil (t * 6 / 24)))

/-- The washout computation of `_calculate_washout` with the membership
test read over the members it names (the intended semantics; the enum of
`app/models/design.py` omits the adaptive members, which makes the code
as written raise — see `calculate_washout_py`). -/
def calculate_washout (tHalf : Option ℚ) (design : DesignType) : Option ℤ :=
  if design = DesignType.parallel ∨ design = DesignType.adaptiveParallel then none
  else
    match tHalf with
    | none => none
    | some t => some (max 7 (ratCeil (t * 6 / 24)))

/-- Python truthiness of `washout_days and washout_days > 14`
(`None` and `0` are falsy). -/
def washoutLong (washoutDays : Option ℤ) : Bool :=
  match washoutDays with
  | none => false
  | some w => decide (14 < w)

/-- `StudyDesignAgent._estimate_dropout` (study_design.py lines 316-348),
exactly as written: each `design == DesignType.X` comparison resolves the
member `X` in order, so `DesignType.ADAPTIVE_PARALLEL` is accessed as
soon as the design is not parallel.  Only the rate is modelled; the
justification string is presentational. -/
def estimate_dropout_py (design : DesignType) (washoutDays : Option ℤ) :
    Except String ℚ := do
  let p ← designTypeAttr "PARALLEL"
  if design = p then
    return 0.10
  else
    let ap ← designTypeAttr "ADAPTIVE_PARALLEL"
    if design = ap then
      return 0.15
    else
      let ac ← designTypeAttr "ADAPTIVE_CROSSOVER"
      if design = ac then
        return 0.15
      else
        let r3 ← designTypeAttr "REPLICATE_3"
        let r4 ← designTypeAttr "REPLICATE_4"
        if design = r3 ∨ design = r4 then
          if washoutLong washoutDays then return 0.30 else return 0.25
        else
          if washoutLong washoutDays then return 0.15 else return 0.12

/-- The dropout heuristic of `_estimate_dropout` with the comparisons read
over the members they name (intended semantics; see
`estimate_dropout_py` for the code as written). -/
def estimate_dropout (design : DesignType) (washoutDays : Option ℤ) : ℚ :=
  if design = DesignType.parallel then 0.10
  else if design = DesignType.adaptiveParallel then 0.15
  else if design = DesignType.adaptiveCrossover then 0.15
  else if design = DesignType.replicate3 ∨ design = DesignType.replicate4 then
    if washoutLong washoutDays then 0.30 else 0.25
  else
    if washoutLong washoutDays then 0.15 else 0.12

/-- `StudyDesignAgent._determine_be_limits` (study_design.py lines 350-370):
(lower, upper, can_expand). -/
def determine_be_limits (isNti isHvd : Bool) : ℚ × ℚ × Bool :=
  if isNti then (90.0, 111.11, false)
  else if isHvd then (80.0, 125.0, true)
  else (80.0, 125.0, false)

/-- `StudyDesignAgent._describe_sequences` (study_design.py lines 372-404):
(n_periods, n_sequences); the textual description is presentational. -/
def describe_sequences (design : DesignType) : ℕ × ℕ :=
  match design with
  | DesignType.crossover2x2 => (2, 2)
  | DesignType.replicate3 => (3, 3)
  | DesignType.replicate4 => (4, 2)
  | DesignType.parallel => (1, 2)
  | DesignType.adaptiveCrossover => (2, 2)
  | DesignType.adaptiveParallel => (1, 2)

/-- The `is_hvd` field of the `DesignResult` built by
`StudyDesignAgent.run` (study_design.py line 109):
`is_hvd or (cv_intra is not None and cv_intra >= 30)`. -/
def design_is_hvd_field (cvIntra : Option ℚ) (isHvd : Bool) : Bool :=
  isHvd || optGE cvIntra 30

/-! ## Sample size: reference tables (sample_size.py lines 138-186) -/

/-- `MIN_SUBJECTS` (sample_size.py line 31). -/
def MIN_SUBJECTS : ℤ := 12

/-- `SampleSizeAgent.TOST_2x2_095`, with keys in the sorted order that
`_interpolate_table` produces via `sorted(table.keys())`. -/
def TOST_2x2_095 : List (ℚ × ℤ) :=
  [(10, 8), (15, 12), (17, 14), (20, 20), (22, 22), (24, 26), (25, 28),
   (26, 30), (28, 34), (30, 40), (32, 44), (35, 52), (38, 64),
   (40, 70), (42, 78), (45, 90), (48, 104), (50, 116)]

/-- `SampleSizeAgent.TOST_2x2_090`. -/
def TOST_2x2_090 : List (ℚ × ℤ) :=
  [(15, 18), (17, 20), (20, 26), (22, 30), (24, 34), (25, 36),
   (26, 40), (28, 44), (30, 52), (32, 56), (35, 68), (38, 80),
   (40, 90), (42, 96), (45, 112), (48, 130), (50, 142)]

/-- `SampleSizeAgent.TOST_PARALLEL_095`. -/
def TOST_PARALLEL_095 : List (ℚ × ℤ) :=
  [(20, 38), (25, 54), (30, 78), (35, 102), (40, 132),
   (45, 162), (50, 196), (55, 232), (60, 270)]

/-- `SampleSizeAgent.TOST_PARALLEL_090`. -/
def TOST_PARALLEL_090 : List (ℚ × ℤ) :=
  [(20, 60), (25, 88), (30, 124), (35, 166), (40, 214),
   (45, 268), (50, 326), (55, 390), (60, 458)]

/-- `SampleSizeAgent.ABEL_2x2x4_095`. -/
def ABEL_2x2x4_095 : List (ℚ × ℤ) :=
  [(30, 24), (32, 24), (34, 26), (35, 26), (36, 28), (38, 30),
   (40, 32), (42, 34), (44, 36), (45, 38), (48, 42), (50, 46),
   (55, 54), (60, 64), (65, 76), (70, 90)]

/-- `SampleSizeAgent.ABEL_2x2x4_090`. -/
def ABEL_2x2x4_090 : List (ℚ × ℤ) :=
  [(30, 30), (32, 32), (34, 34), (35, 34), (36, 36), (38, 38),
   (40, 40), (42, 42), (44, 44), (45, 46), (48, 50), (50, 54),
   (55, 64), (60, 76), (65, 90), (70, 104)]

/-- `SampleSizeAgent.ABEL_2x2x3_095`. -/
def ABEL_2x2x3_095 : List (ℚ × ℤ) :=
  [(30, 36), (32, 36), (34, 36), (35, 36), (36, 36), (38, 42),
   (40, 42), (42, 48), (45, 54), (48, 60), (50, 66),
   (55, 78), (60, 90), (65, 108), (70, 126)]

/-- `SampleSizeAgent.NTID_2x2x4_0975`. -/
def NTID_2x2x4_0975 : List (ℚ × ℤ) :=
  [(4, 54), (5, 34), (6, 24), (8, 16), (10, 14),
   (12, 14), (15, 16), (20, 28), (25, 48), (30, 72)]

/-- `SampleSizeAgent.NTID_2x2x4_095`. -/
def NTID_2x2x4_095 : List (ℚ × ℤ) :=
  [(4, 98), (5, 64), (6, 48), (8, 32), (10, 24),
   (12, 22), (15, 22), (20, 36), (25, 58), (30, 88)]

/-- All reference tables held by `SampleSizeAgent`. -/
def calculatorTables : List (List (ℚ × ℤ)) :=
  [TOST_2x2_095, TOST_2x2_090, TOST_PARALLEL_095, TOST_PARALLEL_090,
   ABEL_2x2x4_095, ABEL_2x2x4_090, ABEL_2x2x3_095,
   NTID_2x2x4_0975, NTID_2x2x4_095]

/-- The `for i in range(len(cvs)-1)` loop of
`SampleSizeAgent._interpolate_table` (sample_size.py lines 242-247):
first adjacent breakpoint pair `(a, b)` with `a <= cv <= b` yields
`max(MIN_SUBJECTS, ceil(na + (cv-a)/(b-a)*(nb-na)))`. -/
def seg_interp (cv : ℚ) : List (ℚ × ℤ) → Option ℤ
  | (a, na) :: (b, nb) :: rest =>
    if a ≤ cv ∧ cv ≤ b then
      some (max MIN_SUBJECTS
        (ratCeil ((na : ℚ) + (cv - a) / (b - a) * ((nb : ℚ) - (na : ℚ)))))
    else seg_interp cv ((b, nb) :: rest)
  | _ => none

/-- `SampleSizeAgent._interpolate_table` (sample_size.py lines 231-249).
The empty table is unreachable (Python would raise `IndexError`; every
caller passes one of the class tables). -/
def interpolate_table (tbl : List (ℚ × ℤ)) (cv : ℚ) : ℤ :=
  match tbl with
  | [] => 0
  | (c0, n0) :: rest =>
    let lastP := rest.getLastD (c0, n0)
    if cv ≤ c0 then max MIN_SUBJECTS n0
    else if lastP.1 ≤ cv then lastP.2
    else
      match seg_interp cv ((c0, n0) :: rest) with
      | some v => v
      | none => max MIN_SUBJECTS lastP.2

/-- `SampleSizeAgent._calculate_n_base` (sample_size.py lines 188-229).
`gmr` is always a number by the time this is called (`run` defaults it
to 0.95), so the `gmr is not None` guards hold. -/
def calculate_n_base (cvIntra gmr : ℚ) (nPeriods : ℕ) (isHvd isNti : Bool) : ℤ :=
  let use090 := decide (gmr ≤ 0.92)
  if isNti then
    let use0975 := decide (0.96 ≤ gmr)
    let tbl := if use0975 then NTID_2x2x4_0975 else NTID_2x2x4_095
    max MIN_SUBJECTS (interpolate_table tbl cvIntra)
  else if isHvd && decide ((30 : ℚ) ≤ cvIntra) then
    let tbl :=
      if 4 ≤ nPeriods then (if use090 then ABEL_2x2x4_090 else ABEL_2x2x4_095)
      else if nPeriods = 3 then ABEL_2x2x3_095
      else (if use090 then TOST_2x2_090 else TOST_2x2_095)
    max MIN_SUBJECTS (interpolate_table tbl cvIntra)
  else
    let tbl :=
      if nPeriods = 1 then (if use090 then TOST_PARALLEL_090 else TOST_PARALLEL_095)
      else (if use090 then TOST_2x2_090 else TOST_2x2_095)
    max MIN_SUBJECTS (interpolate_table tbl cvIntra)

/-- The effective HVD flag inside `SampleSizeAgent.run`
(sample_size.py lines 74-82): default an absent CV to 30, clamp to 60,
then force `is_hvd` when the clamped CV is at least 30. -/
def hvd_effective (cvIntra : Option ℚ) (isHvd : Bool) : Bool :=
  isHvd || decide ((30 : ℚ) ≤ min (cvIntra.getD 30) 60)

/-- Numeric fields of `SampleSizeResult` (models/sample_size.py), as
populated by `SampleSizeAgent.run`; the calculation-description string is
presentational. -/
structure SampleSizeNums where
  nBase : ℤ
  nWithDropout : ℤ
  nWithScreenfail : ℤ
  nTotal : ℤ
  cvIntraUsed : ℚ
  power : ℚ
  alpha : ℚ
  gmr : ℚ
  theta : ℚ
  dropoutRate : ℚ
  screenfailRate : ℚ
  bloodVolumeMl : ℚ
  bloodVolumeOk : Bool
  needsAdaptive : Bool
deriving DecidableEq, Repr

/-- The numeric core of `SampleSizeAgent.run` (sample_size.py lines 50-126).
Optional arguments model the `overrides` dict (`none` = key absent) and
the design-provided dropout rate; Python float division by zero raises
`ZeroDivisionError`, modelled by the explicit denominator checks. -/
def sample_size_run (cvIntra : Option ℚ) (nPeriods nBloodPoints : ℕ)
    (isHvd isNti : Bool) (designDropout : Option ℚ)
    (ovPower ovAlpha ovGmr ovTheta ovScreenfail ovDropout : Option ℚ)
    (ovMinSubjects : Option ℤ) (ovBloodPerPoint ovMaxBlood : Option ℚ)
    (ovMaxBase : Option ℤ) : Except String SampleSizeNums :=
  let power := ovPower.getD 0.80
  let alpha := ovAlpha.getD 0.05
  let gmr := ovGmr.getD 0.95
  let theta := ovTheta.getD 1.25
  let screenfailRate := ovScreenfail.getD 0.15
  let dropoutRate := ovDropout.getD (designDropout.getD 0.15)
  let minSubjects := ovMinSubjects.getD 12
  let bloodPerPoint := ovBloodPerPoint.getD 5.0
  let maxBlood := ovMaxBlood.getD 450.0
  let cv := min (cvIntra.getD 30) 60
  let hvd := isHvd || decide ((30 : ℚ) ≤ cv)
  let nBase := calculate_n_base cv gmr nPeriods hvd isNti
  let maxBase := ovMaxBase.getD 80
  let needsAdaptive := decide (maxBase < nBase)
  if (1 - dropoutRate) = 0 then Except.error "ZeroDivisionError"
  else
    let nWithDropout := ratCeil ((nBase : ℚ) / (1 - dropoutRate))
    if (1 - screenfailRate) = 0 then Except.error "ZeroDivisionError"
    else
      let nWithScreenfail := ratCeil ((nWithDropout : ℚ) / (1 - screenfailRate))
      let nTotal := max minSubjects nWithScreenfail
      let bloodVolume := (nBloodPoints : ℚ) * (nPeriods : ℚ) * bloodPerPoint
      let bloodOk := decide (bloodVolume ≤ maxBlood)
      Except.ok
        ⟨nBase, nWithDropout, nWithScreenfail, nTotal, cv, power, alpha, gmr,
         theta, dropoutRate, screenfailRate, bloodVolume, bloodOk, needsAdaptive⟩

/-- Projection of a sample-size result onto every field other than
`needsAdaptive`. -/
def dropNeedsAdaptive (r : SampleSizeNums) :
    ℤ × ℤ × ℤ × ℤ × ℚ × ℚ × ℚ × ℚ × ℚ × ℚ × ℚ × ℚ × Bool :=
  (r.nBase, r.nWithDropout, r.nWithScreenfail, r.nTotal, r.cvIntraUsed,
   r.power, r.alpha, r.gmr, r.theta, r.dropoutRate, r.screenfailRate,
   r.bloodVolumeMl, r.bloodVolumeOk)

/-- Strictly increasing breakpoints: the shape `sorted(table.keys())`
produces and `_interpolate_table` relies on. -/
abbrev sortedKeys (tbl : List (ℚ × ℤ)) : Prop :=
  List.Pairwise (fun p q => p.1 < q.1) tbl

/-- Non-decreasing subject counts along the breakpoints (true of the
TOST and scaled-limits tables, false of the NTID tables). -/
abbrev valuesMono (tbl : List (ℚ × ℤ)) : Prop :=
  List.Pairwise (fun p q => p.2 ≤ q.2) tbl

/-- The last breakpoint entry of a table (tables are nonempty). -/
def tableLast (tbl : List (ℚ × ℤ)) : ℚ × ℤ :=
  tbl.getLastD (0, 0)

/-- The first breakpoint entry of a table (tables are nonempty). -/
def tableHead (tbl : List (ℚ × ℤ)) : ℚ × ℤ :=
  tbl.headD (0, 0)

/-- The calculator's tables whose subject counts are non-decreasing in
the breakpoint (all TOST and scaled-limits tables; the two NTID tables
are excluded because their required size first falls, then rises). -/
def monotoneTables : List (List (ℚ × ℤ)) :=
  [TOST_2x2_095, TOST_2x2_090, TOST_PARALLEL_095, TOST_PARALLEL_090,
   ABEL_2x2x4_095, ABEL_2x2x4_090, ABEL_2x2x3_095]

/-! ## Blood sampling (app/utils/blood_sampling.py) -/

/-- Computable floor on `ℚ`; agrees with `Int.floor`. -/
def ratFloor (q : ℚ) : ℤ := Rat.floor q

/-- Constants of blood_sampling.py lines 30-40. -/
def FK_SAMPLE_ML : ℚ := 5.0

def FLUSH_ML : ℚ := 0.5

def BHAK_SAMPLE_ML : ℚ := 10.0

def KAK_SAMPLE_ML : ℚ := 4.0

def SEROLOGY_ML : ℚ := 10.0

def GENETICS_ML : ℚ := 10.0

def MAX_POINTS_PER_PERIOD : ℤ := 20

def MIN_POINTS_PER_PERIOD : ℤ := 11

def MAX_BLOOD_PER_SUBJECT_ML : ℚ := 450.0

/-- The fixed grid of candidate draw times
(`standard_grid`, blood_sampling.py lines 234-237). -/
def standardGrid : List ℚ :=
  [0, 0.25, 0.5, 0.75, 1, 1.25, 1.5, 2, 2.5, 3, 4, 5, 6, 8, 10, 12,
   16, 20, 24, 30, 36, 48, 60, 72]

/-- `_snap_to_grid` (blood_sampling.py lines 348-352): Python
`min(grid, key=lambda x: abs(x - value))`, which keeps the first
minimiser; an empty grid returns the value unchanged. -/
def snap_to_grid (value : ℚ) (grid : List ℚ) : ℚ :=
  match grid with
  | [] => value
  | g :: gs =>
    gs.foldl (fun best t => if |t - value| < |best - value| then t else best) g

/-- Insert into a strictly sorted list, ignoring an element already
present.  `sortedDedup` below models Python's `sorted(set(...))` and the
`selected.append(t); selected.sort()` step (the inserted point is never
already a member there). -/
def insertSortedU (x : ℚ) : List ℚ → List ℚ
  | [] => [x]
  | y :: ys =>
    if x < y then x :: y :: ys
    else if x = y then y :: ys
    else y :: insertSortedU x ys

/-- Python `sorted(must_have)` for the set of mandatory points, built
here from the list of added elements. -/
def sortedDedup (l : List ℚ) : List ℚ := l.foldr insertSortedU []

/-- Python `min(candidates, key=lambda x: abs(x - mid))` (first
minimiser); `none` on an empty candidate list. -/
def argmin_abs (mid : ℚ) : List ℚ → Option ℚ
  | [] => none
  | c :: cs =>
    some (cs.foldl (fun best t => if |t - mid| < |best - mid| then t else best) c)

/-- The gap-search of the fill loop (blood_sampling.py lines 299-312):
scan consecutive pairs of `sel`, keeping the candidate of the widest gap
seen so far that contains a remaining point (`best_gap` starts at 0 and
is updated only when a candidate is found). -/
def best_insert_aux (rem : List ℚ) : List ℚ → ℚ → Option ℚ → Option ℚ
  | a :: b :: rest, bestGap, bestIns =>
    let gap := b - a
    if bestGap < gap then
      match argmin_abs ((a + b) / 2)
          (rem.filter (fun t => decide (a < t) && decide (t < b))) with
      | some c => best_insert_aux rem (b :: rest) gap (some c)
      | none => best_insert_aux rem (b :: rest) bestGap bestIns
    else best_insert_aux rem (b :: rest) bestGap bestIns
  | _, _, bestIns => bestIns

/-- One gap search over the whole selected list. -/
def best_insert (sel rem : List ℚ) : Option ℚ :=
  best_insert_aux rem sel 0 none

/-- The `while len(selected) < n_points and remaining` loop
(blood_sampling.py lines 296-318).  The fuel argument only bounds the
number of iterations; it is called with `rem.length`, which the loop
cannot exceed because every iteration moves one remaining point into the
selection. -/
def fill_loop (n : ℕ) : ℕ → List ℚ → List ℚ → List ℚ
  | 0, sel, _ => sel
  | fuel + 1, sel, rem =>
    if sel.length < n then
      match best_insert sel rem with
      | some t => fill_loop n fuel (insertSortedU t sel) (rem.erase t)
      | none => sel
    else sel

/-- Consecutive triples `(sel[i-1], sel[i], sel[i+1])` of a list: the
interior positions examined by the trim loop's `0 < idx < len - 1`
check. -/
def interior_triples : List ℚ → List (ℚ × ℚ × ℚ)
  | a :: b :: c :: rest => (a, b, c) :: interior_triples (b :: c :: rest)
  | _ => []

/-- The removal search of the trim loop (blood_sampling.py lines
330-339): over interior points not in the protected set, keep the first
point whose neighbours have the smallest combined gap (strict `<`
update, as Python's running minimum). -/
def worst_removable (protectedL sel : List ℚ) : Option ℚ :=
  match (interior_triples sel).filter (fun tr => decide (tr.2.1 ∉ protectedL)) with
  | [] => none
  | tr :: trs =>
    some (trs.foldl
      (fun best t => if t.2.2 - t.1 < best.2.2 - best.1 then t else best) tr).2.1

/-- The `while len(selected) > n_points` loop (blood_sampling.py lines
321-343).  The fuel argument only bounds iterations; it is called with
`sel.length`, which suffices because every iteration erases one
element. -/
def trim_loop (n : ℕ) (protectedL : List ℚ) : ℕ → List ℚ → List ℚ
  | 0, sel => sel
  | fuel + 1, sel =>
    if n < sel.length then
      if (sel.filter (fun t => decide (t ∉ protectedL))).isEmpty then sel
      else
        match worst_removable protectedL sel with
        | some w => trim_loop n protectedL fuel (sel.erase w)
        | none => sel
    else sel

/-- `_generate_sampling_schedule` (blood_sampling.py lines 211-345). -/
def generate_sampling_schedule (nPoints : ℕ) (tmaxHours tHalfHours maxHours : ℚ) :
    List ℚ :=
  let grid := standardGrid.filter (fun t => decide (t ≤ maxHours))
  let tmaxSnap := snap_to_grid tmaxHours grid
  let beforeTmax := grid.filter (fun t => decide (0 < t) && decide (t < tmaxSnap))
  let beforeSelected := beforeTmax.drop (beforeTmax.length - 3)
  let afterTmax := grid.filter (fun t => decide (tmaxSnap < t))
  let afterSelected := afterTmax.take 3
  let lastTime := min (3 * tHalfHours) maxHours
  let lastSnap0 := snap_to_grid lastTime grid
  let lastSnap := if lastSnap0 ≤ tmaxSnap then grid.getLastD maxHours else lastSnap0
  let endpointSnap := snap_to_grid maxHours grid
  let endpointExtra := if lastSnap < endpointSnap then [endpointSnap] else []
  let terminalStart := afterSelected.getLastD tmaxSnap
  let terminalCandidates :=
    grid.filter (fun t => decide (terminalStart < t) && decide (t ≤ lastSnap))
  let len := terminalCandidates.length
  let terminalSelected :=
    if 4 < len then
      let base := [terminalCandidates.getD (0 * len / 4) 0,
                   terminalCandidates.getD (1 * len / 4) 0,
                   terminalCandidates.getD (2 * len / 4) 0,
                   terminalCandidates.getD (3 * len / 4) 0]
      if lastSnap ∈ base then base else base.take 3 ++ [lastSnap]
    else terminalCandidates
  let mustList := [0, tmaxSnap] ++ beforeSelected ++ afterSelected ++ [lastSnap]
      ++ endpointExtra ++ terminalSelected
  let sel0 := sortedDedup mustList
  let rem0 := grid.filter (fun t => decide (t ∉ sel0))
  let filled := fill_loop nPoints rem0.length sel0 rem0
  let protectedL := [0, tmaxSnap, lastSnap] ++ beforeSelected.take 2
      ++ afterSelected.take 2
  trim_loop nPoints protectedL filled.length filled

/-- Numeric fields of `BloodSamplingResult` (blood_sampling.py lines
47-75); the formula and schedule strings are presentational, and
`biosamples_total` (which depends only on the unused `n_subjects`
argument) is omitted.  The `fk_sample_ml` and `max_blood_ml` arguments
always take their default values `FK_SAMPLE_ML` and
`MAX_BLOOD_PER_SUBJECT_ML` in the planning pipeline, and are inlined. -/
structure BloodNums where
  nPeriods : ℕ
  fkPointsPerPeriod : ℤ
  fkTotalPoints : ℤ
  needsGenetics : Bool
  fkVolumeMl : ℚ
  flushVolumeMl : ℚ
  labVolumeMl : ℚ
  geneticsVolumeMl : ℚ
  totalVolumeMl : ℚ
  samplingTimesHours : List ℚ
  samplingDurationHours : ℚ
  nLabVisits : ℕ
deriving Repr

/-- `calculate_blood_sampling` (blood_sampling.py lines 82-204) at the
default per-point volume (5 mL) and ceiling (450 mL). -/
def calculate_blood_sampling (nPeriods : ℕ) (tHalfHours tmaxHours : ℚ)
    (needsGenetics : Bool) : BloodNums :=
  let nLabVisits := 2 + nPeriods
  let bhakTotal := (nLabVisits : ℚ) * BHAK_SAMPLE_ML
  let kakTotal := (nLabVisits : ℚ) * KAK_SAMPLE_ML
  let geneticsTotal := if needsGenetics then GENETICS_ML else 0
  let labVolume := bhakTotal + kakTotal + SEROLOGY_ML + geneticsTotal
  let availableForFk := MAX_BLOOD_PER_SUBJECT_ML - labVolume + (nPeriods : ℚ) * FLUSH_ML
  let fkPerPeriodMax :=
    ratFloor (availableForFk / ((nPeriods : ℚ) * (FK_SAMPLE_ML + FLUSH_ML)))
  let fkPerPeriod := max (min fkPerPeriodMax MAX_POINTS_PER_PERIOD) MIN_POINTS_PER_PERIOD
  let fkTotalPoints := fkPerPeriod * (nPeriods : ℤ)
  let fkVolume := (fkTotalPoints : ℚ) * FK_SAMPLE_ML
  let flushCount := fkTotalPoints - (nPeriods : ℤ)
  let flushVolume := (flushCount : ℚ) * FLUSH_ML
  let totalVolume := labVolume + fkVolume + flushVolume
  let samplingAfterCmax := min (3 * tHalfHours) 72
  let samplingDuration := tmaxHours + samplingAfterCmax
  let samplingDurationHours : ℚ :=
    if samplingDuration ≤ 24 then 24
    else if samplingDuration ≤ 36 then 36
    else if samplingDuration ≤ 48 then 48
    else 72
  let samplingTimes :=
    generate_sampling_schedule fkPerPeriod.toNat tmaxHours tHalfHours samplingDurationHours
  ⟨nPeriods, fkPerPeriod, fkTotalPoints, needsGenetics, fkVolume, flushVolume,
   labVolume, geneticsTotal, totalVolume, samplingTimes, samplingDurationHours,
   nLabVisits⟩

/-! ## Basic lemmas about `ratCeil` -/

theorem ratCeil_eq_ceil (q : ℚ) : ratCeil q = Int.ceil q := by
  have h : Rat.floor (-q) = Int.floor (-q) := rfl
  rw [ratCeil, h, Int.floor_neg, neg_neg]

theorem ratCeil_eq_of {q : ℚ} {z : ℤ} (h1 : (z : ℚ) - 1 < q) (h2 : q ≤ (z : ℚ)) :
    ratCeil q = z := by
  rw [ratCeil_eq_ceil, Int.ceil_eq_iff]
  exact ⟨h1, h2⟩

theorem ratCeil_intCast (z : ℤ) : ratCeil ((z : ℚ)) = z := by
  rw [ratCeil_eq_ceil, Int.ceil_intCast]

/-! ## Design agent lemmas -/

theorem designTypeAttr_adaptive_parallel :
    designTypeAttr "ADAPTIVE_PARALLEL" = Except.error "AttributeError: ADAPTIVE_PARALLEL" := by
  rfl

theorem calculate_washout_py_raises (tHalf : Option ℚ) (design : DesignType) :
    calculate_washout_py tHalf design =
      Except.error "AttributeError: ADAPTIVE_PARALLEL" := by
  simp [calculate_washout_py, designTypeAttr, Bind.bind, Except.bind]

theorem estimate_dropout_py_eval (design : DesignType) (w : Option ℤ) :
    estimate_dropout_py design w =
      if design = DesignType.parallel then Except.ok 0.10
      else Except.error "AttributeError: ADAPTIVE_PARALLEL" := by
  cases design <;>
    simp [estimate_dropout_py, designTypeAttr, Bind.bind, Except.bind, Pure.pure, Except.pure]

/-- Claim C1: for in-range inputs the planning core's components — in
particular the design agent's washout calculation and dropout
estimation — are claimed to complete without raising.  In fact both
access the missing enum member `DesignType.ADAPTIVE_PARALLEL` and raise
`AttributeError`: `_calculate_washout` on every call (the membership
tuple on line 185 is built unconditionally), `_estimate_dropout` on
every call whose design is not parallel. -/
theorem C1_washout_dropout_raise :
    (∀ (tHalf : Option ℚ) (design : DesignType),
      calculate_washout_py tHalf design =
        Except.error "AttributeError: ADAPTIVE_PARALLEL") ∧
    (∀ (design : DesignType) (w : Option ℤ),
      estimate_dropout_py design w =
        if design = DesignType.parallel then Except.ok 0.10
        else Except.error "AttributeError: ADAPTIVE_PARALLEL") :=
  ⟨calculate_washout_py_raises, estimate_dropout_py_eval⟩

/-- Claim C6 (code bug on the washout clause): the selection rules of
`_select_design` hold with the stated priority, and for `t_half = 30`
the selected design is parallel; the washout for the parallel outcome is
`None` under the membership test's intended reading, but
`_calculate_washout` as written raises `AttributeError` instead of
returning it. -/
theorem C6_design_rules_and_washout :
    (∀ (cv tHalf : Option ℚ) (nti hvd : Bool), optGT tHalf 24 = true →
      select_design cv tHalf nti hvd = DesignType.parallel) ∧
    (∀ (cv tHalf : Option ℚ) (nti hvd : Bool), optGT tHalf 24 = false → nti = true →
      select_design cv tHalf nti hvd = DesignType.replicate4) ∧
    (∀ (cv tHalf : Option ℚ) (nti hvd : Bool), optGT tHalf 24 = false → nti = false →
      (hvd = true ∨ optGE cv 30 = true) →
      select_design cv tHalf nti hvd = DesignType.replicate4) ∧
    (∀ (cv tHalf : Option ℚ) (nti hvd : Bool), optGT tHalf 24 = false → nti = false →
      hvd = false → optGE cv 30 = false →
      select_design cv tHalf nti hvd = DesignType.crossover2x2) ∧
    (∀ (cv : Option ℚ) (nti hvd : Bool),
      select_design cv (some 30) nti hvd = DesignType.parallel ∧
      calculate_washout (some 30) (select_design cv (some 30) nti hvd) = none) ∧
    (∀ (tHalf : Option ℚ) (design : DesignType),
      calculate_washout_py tHalf design =
        Except.error "AttributeError: ADAPTIVE_PARALLEL") := by
  refine ⟨?_, ?_, ?_, ?_, ?_, calculate_washout_py_raises⟩
  · intro cv tHalf nti hvd h
    simp [select_design, h]
  · intro cv tHalf nti hvd h hn
    simp [select_design, h, hn]
  · intro cv tHalf nti hvd h hn hh
    rcases hh with hh | hh <;> simp [select_design, h, hn, hh]
  · intro cv tHalf nti hvd h hn hh ho
    simp [select_design, h, hn, hh, ho]
  · intro cv nti hvd
    have h : optGT (some (30 : ℚ)) 24 = true := by decide
    constructor
    · simp [select_design, h]
    · simp [select_design, h, calculate_washout]

/-- Witness for `C6_design_rules_and_washout`. -/
theorem C6_design_rules_and_washout_witness :
    select_design (some 50) (some 12) false true = DesignType.replicate4 ∧
    select_design none (some 30) false false = DesignType.parallel :=
  ⟨C6_design_rules_and_washout.2.2.1 (some 50) (some 12) false true (by decide)
      rfl (Or.inl rfl),
   (C6_design_rules_and_washout.2.2.2.2.1 none false false).1⟩

/-- Claim C10 counterexample: with an absent `cv_intra` and the HVD flag
off, the sample-size calculator's effective flag is forced to `true` (the
absent CV defaults to 30), but the design result's `is_hvd` field stays
`false` — the design agent applies no such defaulting. -/
theorem C10_absent_cv_counterexample :
    hvd_effective none false = true ∧ design_is_hvd_field none false = false := by
  constructor
  · have h : min ((30 : ℚ)) 60 = 30 := min_eq_left (by norm_num)
    simp [hvd_effective, h]
  · rfl

/-- Claim C10 (amended): the sample-size calculator forces the HVD flag
whenever the effective CV (absent defaulted to 30, clamped to 60) is at
least 30, and its base size is computed with that forced flag; the
design result's `is_hvd` field, however, is true only when `cv_intra` is
present and at least 30 (or the caller's flag is set) — an absent CV
does not trigger the design-side HVD marking. -/
theorem C10_hvd_forcing :
    (∀ (cv : Option ℚ) (flag : Bool), 30 ≤ min (cv.getD 30) 60 →
      hvd_effective cv flag = true) ∧
    (∀ (cv : Option ℚ) (nP nB : ℕ) (hvd nti : Bool) (dd oP oA oG oT oS oD : Option ℚ)
      (oM : Option ℤ) (oBP oMB : Option ℚ) (oMBase : Option ℤ) (r : SampleSizeNums),
      sample_size_run cv nP nB hvd nti dd oP oA oG oT oS oD oM oBP oMB oMBase =
        Except.ok r →
      r.nBase = calculate_n_base (min (cv.getD 30) 60) (oG.getD 0.95) nP
        (hvd_effective cv hvd) nti) ∧
    (∀ (v : ℚ) (flag : Bool), 30 ≤ v → design_is_hvd_field (some v) flag = true) ∧
    (∀ flag : Bool, design_is_hvd_field none flag = flag) := by
  refine ⟨?_, ?_, ?_, ?_⟩
  · intro cv flag h
    rw [hvd_effective, decide_eq_true h, Bool.or_true]
  · intro cv nP nB hvd nti dd oP oA oG oT oS oD oM oBP oMB oMBase r hrun
    simp only [sample_size_run] at hrun
    split at hrun
    · exact absurd hrun (by simp)
    split at hrun
    · exact absurd hrun (by simp)
    rw [Except.ok.injEq] at hrun
    rw [← hrun]
    rfl
  · intro v flag h
    simp [design_is_hvd_field, optGE, decide_eq_true h]
  · intro flag
    simp [design_is_hvd_field, optGE]

/-- Witness for `C10_hvd_forcing`. -/
theorem C10_hvd_forcing_witness : design_is_hvd_field (some 40) false = true :=
  C10_hvd_forcing.2.2.1 40 false (by decide)

/-- Claim C9: `needs_adaptive` equals `n_base > max_base_subjects`
(default 80), and the flag is only surfaced: changing the
`max_base_subjects` override changes no other output field. -/
theorem C9_needs_adaptive_surfaced :
    (∀ (cv : Option ℚ) (nP nB : ℕ) (hvd nti : Bool) (dd oP oA oG oT oS oD : Option ℚ)
      (oM : Option ℤ) (oBP oMB : Option ℚ) (b1 b2 : Option ℤ),
      Except.map dropNeedsAdaptive
          (sample_size_run cv nP nB hvd nti dd oP oA oG oT oS oD oM oBP oMB b1) =
        Except.map dropNeedsAdaptive
          (sample_size_run cv nP nB hvd nti dd oP oA oG oT oS oD oM oBP oMB b2)) ∧
    (∀ (cv : Option ℚ) (nP nB : ℕ) (hvd nti : Bool) (dd oP oA oG oT oS oD : Option ℚ)
      (oM : Option ℤ) (oBP oMB : Option ℚ) (oMBase : Option ℤ) (r : SampleSizeNums),
      sample_size_run cv nP nB hvd nti dd oP oA oG oT oS oD oM oBP oMB oMBase =
        Except.ok r →
      r.needsAdaptive = decide (oMBase.getD 80 < r.nBase)) := by
  constructor
  · intro cv nP nB hvd nti dd oP oA oG oT oS oD oM oBP oMB b1 b2
    simp only [sample_size_run]
    split
    · rfl
    · split <;> rfl
  · intro cv nP nB hvd nti dd oP oA oG oT oS oD oM oBP oMB oMBase r hrun
    simp only [sample_size_run] at hrun
    split at hrun
    · exact absurd hrun (by simp)
    split at hrun
    · exact absurd hrun (by simp)
    rw [Except.ok.injEq] at hrun
    rw [← hrun]

/-! ## Sample-size arithmetic lemmas -/

theorem calculate_n_base_ge_min (cv gmr : ℚ) (nP : ℕ) (hvd nti : Bool) :
    MIN_SUBJECTS ≤ calculate_n_base cv gmr nP hvd nti := by
  unfold calculate_n_base
  split_ifs <;> exact le_max_left _ _

theorem le_ratCeil_div {n : ℤ} {r : ℚ} (hn : 0 ≤ n) (h0 : 0 ≤ r) (h1 : r < 1) :
    n ≤ ratCeil ((n : ℚ) / (1 - r)) := by
  have hpos : (0 : ℚ) < 1 - r := by linarith
  have hn' : (0 : ℚ) ≤ (n : ℚ) := by exact_mod_cast hn
  have hle : (n : ℚ) ≤ (n : ℚ) / (1 - r) := by
    rw [le_div_iff₀ hpos]
    nlinarith
  rw [ratCeil_eq_ceil]
  calc n = Int.ceil ((n : ℚ)) := (Int.ceil_intCast n).symm
    _ ≤ Int.ceil ((n : ℚ) / (1 - r)) := Int.ceil_mono hle

theorem calculate_n_base_scenario1 :
    calculate_n_base 24 (19 / 20) 2 false false = 26 := by
  have h : ratCeil ((26 : ℚ)) = 26 := ratCeil_eq_of (by norm_num) (by norm_num)
  norm_num [calculate_n_base, interpolate_table, seg_interp, TOST_2x2_095,
    MIN_SUBJECTS, h]

/-- Spec scenario 1 evaluated through the run pipeline:
`cv_intra = 24`, two periods, defaults everywhere. -/
theorem run_scenario1 :
    sample_size_run (some 24) 2 18 false false none none none none none none
        none none none none none =
      Except.ok ⟨26, 31, 37, 37, 24, 0.80, 0.05, 0.95, 1.25, 0.15, 0.15, 180,
        true, false⟩ := by
  have hmin : min ((24 : ℚ)) 60 = 24 := min_eq_left (by norm_num)
  have hb : calculate_n_base 24 (19 / 20) 2 false false = 26 :=
    calculate_n_base_scenario1
  have h1 : ratCeil ((520 / 17 : ℚ)) = 31 := ratCeil_eq_of (by norm_num) (by norm_num)
  have h2 : ratCeil ((620 / 17 : ℚ)) = 37 := ratCeil_eq_of (by norm_num) (by norm_num)
  simp only [sample_size_run, Option.getD, hmin]
  norm_num [hb, h1, h2]

/-- Claim C4: the dropout and screen-fail inflation formulas and the
final clamp, with the resulting chain
`n_base ≤ n_with_dropout ≤ n_with_screenfail ≤ n_total`, plus the
concrete scenario `cv_intra = 24`, defaults elsewhere, giving
`26 / 31 / 37 / 37`. -/
theorem C4_inflation_chain :
    (∀ (cv : Option ℚ) (nP nB : ℕ) (hvd nti : Bool) (dd oP oA oG oT oS oD : Option ℚ)
      (oM : Option ℤ) (oBP oMB : Option ℚ) (oMBase : Option ℤ) (r : SampleSizeNums),
      0 ≤ oD.getD (dd.getD 0.15) → oD.getD (dd.getD 0.15) < 1 →
      0 ≤ oS.getD 0.15 → oS.getD 0.15 < 1 →
      sample_size_run cv nP nB hvd nti dd oP oA oG oT oS oD oM oBP oMB oMBase =
        Except.ok r →
      (r.nWithDropout = ratCeil ((r.nBase : ℚ) / (1 - r.dropoutRate)) ∧
       r.nWithScreenfail = ratCeil ((r.nWithDropout : ℚ) / (1 - r.screenfailRate)) ∧
       r.nTotal = max (oM.getD 12) r.nWithScreenfail) ∧
      (r.nBase ≤ r.nWithDropout ∧ r.nWithDropout ≤ r.nWithScreenfail ∧
       r.nWithScreenfail ≤ r.nTotal)) ∧
    sample_size_run (some 24) 2 18 false false none none none none none none
        none none none none none =
      Except.ok ⟨26, 31, 37, 37, 24, 0.80, 0.05, 0.95, 1.25, 0.15, 0.15, 180,
        true, false⟩ := by
  refine ⟨?_, run_scenario1⟩
  intro cv nP nB hvd nti dd oP oA oG oT oS oD oM oBP oMB oMBase r hd0 hd1 hs0 hs1 hrun
  simp only [sample_size_run] at hrun
  split at hrun
  · exact absurd hrun (by simp)
  split at hrun
  · exact absurd hrun (by simp)
  rw [Except.ok.injEq] at hrun
  subst hrun
  have hbase : (0 : ℤ) ≤ calculate_n_base (min (cv.getD 30) 60) (oG.getD 0.95) nP
      (hvd || decide (30 ≤ min (cv.getD 30) 60)) nti :=
    le_trans (by norm_num [MIN_SUBJECTS]) (calculate_n_base_ge_min _ _ _ _ _)
  have s1 := le_ratCeil_div hbase hd0 hd1
  have s2 := le_ratCeil_div (le_trans hbase s1) hs0 hs1
  exact ⟨⟨rfl, rfl, rfl⟩, ⟨s1, s2, le_max_right _ _⟩⟩

theorem default_rate_nonneg : (0 : ℚ) ≤ (none : Option ℚ).getD ((none : Option ℚ).getD 0.15) := by
  norm_num

theorem default_rate_lt_one : (none : Option ℚ).getD ((none : Option ℚ).getD 0.15) < 1 := by
  norm_num

theorem default_screenfail_nonneg : (0 : ℚ) ≤ (none : Option ℚ).getD 0.15 := by
  norm_num

theorem default_screenfail_lt_one : (none : Option ℚ).getD 0.15 < 1 := by
  norm_num

/-- Witness for `C4_inflation_chain`. -/
theorem C4_inflation_chain_witness :
    (⟨26, 31, 37, 37, 24, 0.80, 0.05, 0.95, 1.25, 0.15, 0.15, 180,
        true, false⟩ : SampleSizeNums).nBase ≤
      (⟨26, 31, 37, 37, 24, 0.80, 0.05, 0.95, 1.25, 0.15, 0.15, 180,
        true, false⟩ : SampleSizeNums).nWithDropout :=
  ((C4_inflation_chain.1 (some 24) 2 18 false false none none none none none
      none none none none none none _ default_rate_nonneg default_rate_lt_one
      default_screenfail_nonneg default_screenfail_lt_one run_scenario1).2).1

/-- Witness for `C9_needs_adaptive_surfaced`. -/
theorem C9_needs_adaptive_surfaced_witness :
    (⟨26, 31, 37, 37, 24, 0.80, 0.05, 0.95, 1.25, 0.15, 0.15, 180,
        true, false⟩ : SampleSizeNums).needsAdaptive =
      decide ((none : Option ℤ).getD 80 <
        (⟨26, 31, 37, 37, 24, 0.80, 0.05, 0.95, 1.25, 0.15, 0.15, 180,
          true, false⟩ : SampleSizeNums).nBase) :=
  C9_needs_adaptive_surfaced.2 (some 24) 2 18 false false none none none none
    none none none none none none none _ run_scenario1

/-- Claim C2 counterexample: with the HVD flag set but `cv_intra = 25`
(below the 30 threshold) and four periods, `_calculate_n_base` uses the
unscaled TOST table (result 28), not the scaled-limits 4-period table
(which would give 24): the HVD branch requires `cv_intra ≥ 30` in
addition to the flag. -/
theorem C2_hvd_flag_counterexample :
    calculate_n_base 25 0.95 4 true false = 28 ∧
    max MIN_SUBJECTS (interpolate_table ABEL_2x2x4_095 25) = 24 := by
  constructor
  · have h : ratCeil ((28 : ℚ)) = 28 := ratCeil_eq_of (by norm_num) (by norm_num)
    norm_num [calculate_n_base, interpolate_table, seg_interp, TOST_2x2_095,
      MIN_SUBJECTS, h]
  · norm_num [interpolate_table, ABEL_2x2x4_095, MIN_SUBJECTS]

/-- Claim C2 (amended): for inputs flagged HVD with `is_nti` false and
`cv_intra ≥ 30`, method selection follows the period count — the scaled
4-period table for `n_periods ≥ 4`, the scaled 3-period table for
exactly 3, and the unscaled crossover table otherwise; in particular
`cv_intra = 35`, HVD, 2 periods gives 52 from the unscaled table. -/
theorem C2_hvd_method_selection :
    (∀ (cv gmr : ℚ) (nP : ℕ), 30 ≤ cv →
      calculate_n_base cv gmr nP true false =
        max MIN_SUBJECTS (interpolate_table
          (if 4 ≤ nP then (if gmr ≤ 0.92 then ABEL_2x2x4_090 else ABEL_2x2x4_095)
           else if nP = 3 then ABEL_2x2x3_095
           else (if gmr ≤ 0.92 then TOST_2x2_090 else TOST_2x2_095)) cv)) ∧
    calculate_n_base 35 0.95 2 true false = 52 ∧
    interpolate_table TOST_2x2_095 35 = 52 := by
  have h52 : interpolate_table TOST_2x2_095 35 = 52 := by
    have h : ratCeil ((52 : ℚ)) = 52 := ratCeil_eq_of (by norm_num) (by norm_num)
    norm_num [interpolate_table, seg_interp, TOST_2x2_095, MIN_SUBJECTS, h]
  refine ⟨?_, ?_, h52⟩
  · intro cv gmr nP h
    simp [calculate_n_base, decide_eq_true h]
  · norm_num [calculate_n_base, MIN_SUBJECTS, h52]

/-- Witness for `C2_hvd_method_selection`. -/
theorem C2_hvd_method_selection_witness :
    calculate_n_base 35 1 2 true false =
      max MIN_SUBJECTS (interpolate_table
        (if 4 ≤ 2 then (if (1 : ℚ) ≤ 0.92 then ABEL_2x2x4_090 else ABEL_2x2x4_095)
         else if 2 = 3 then ABEL_2x2x3_095
         else (if (1 : ℚ) ≤ 0.92 then TOST_2x2_090 else TOST_2x2_095)) 35) :=
  C2_hvd_method_selection.1 35 1 2 (by decide)

/-! ## Interpolation lemmas -/

theorem ratCeil_mono {p q : ℚ} (h : p ≤ q) : ratCeil p ≤ ratCeil q := by
  rw [ratCeil_eq_ceil, ratCeil_eq_ceil]
  exact Int.ceil_mono h

theorem intCast_le_ratCeil {n : ℤ} {q : ℚ} (h : (n : ℚ) ≤ q) : n ≤ ratCeil q := by
  rw [ratCeil_eq_ceil]
  exact le_trans (le_of_eq (Int.ceil_intCast n).symm) (Int.ceil_mono h)

theorem ratCeil_le_intCast {n : ℤ} {q : ℚ} (h : q ≤ (n : ℚ)) : ratCeil q ≤ n := by
  rw [ratCeil_eq_ceil]
  exact Int.ceil_le.mpr h

/-- The interpolated value inside a segment lies between the endpoint
values when the values are in that order. -/
theorem seg_raw_bounds {a b cv : ℚ} {na nb : ℤ} (hab : a < b) (hval : na ≤ nb)
    (h1 : a ≤ cv) (h2 : cv ≤ b) :
    (na : ℚ) ≤ (na : ℚ) + (cv - a) / (b - a) * ((nb : ℚ) - (na : ℚ)) ∧
    (na : ℚ) + (cv - a) / (b - a) * ((nb : ℚ) - (na : ℚ)) ≤ (nb : ℚ) := by
  have hba : (0 : ℚ) < b - a := by linarith
  have ht0 : (0 : ℚ) ≤ (cv - a) / (b - a) := div_nonneg (by linarith) (le_of_lt hba)
  have ht1 : (cv - a) / (b - a) ≤ 1 := by
    rw [div_le_one hba]
    linarith
  have hv : (0 : ℚ) ≤ (nb : ℚ) - (na : ℚ) := by
    have : (na : ℚ) ≤ (nb : ℚ) := by exact_mod_cast hval
    linarith
  constructor
  · nlinarith
  · nlinarith

theorem seg_interp_ge_min (cv : ℚ) :
    ∀ (l : List (ℚ × ℤ)) (v : ℤ), seg_interp cv l = some v → MIN_SUBJECTS ≤ v := by
  intro l
  induction l with
  | nil => intro v h; simp [seg_interp] at h
  | cons p l ih =>
    intro v h
    match l, ih, h with
    | [], _, h => simp [seg_interp] at h
    | (b, nb) :: l', ih, h =>
      rw [seg_interp] at h
      split at h
      · rw [Option.some.injEq] at h
        rw [← h]
        exact le_max_left _ _
      · exact ih v h

theorem sorted_head_key_le {x : ℚ × ℤ} {l : List (ℚ × ℤ)} (hs : sortedKeys (x :: l))
    {p : ℚ × ℤ} (hp : p ∈ x :: l) : x.1 ≤ p.1 := by
  rcases List.mem_cons.mp hp with h | h
  · rw [h]
  · exact le_of_lt ((List.pairwise_cons.mp hs).1 p h)

theorem tableLast_cons (x y : ℚ × ℤ) (l : List (ℚ × ℤ)) :
    tableLast (x :: y :: l) = tableLast (y :: l) := by
  simp [tableLast, List.getLastD_cons]

theorem tableLast_mem (x : ℚ × ℤ) :
    ∀ l : List (ℚ × ℤ), tableLast (x :: l) ∈ x :: l := by
  intro l
  induction l generalizing x with
  | nil => simp [tableLast]
  | cons y l ih =>
    rw [tableLast_cons]
    exact List.mem_cons_of_mem x (ih y)

theorem sorted_key_le_last {x : ℚ × ℤ} {l : List (ℚ × ℤ)} (hs : sortedKeys (x :: l)) :
    ∀ p ∈ x :: l, p.1 ≤ (tableLast (x :: l)).1 := by
  induction l generalizing x with
  | nil =>
    intro p hp
    rcases List.mem_cons.mp hp with h | h
    · rw [h]; rfl
    · simp at h
  | cons y l ih =>
    intro p hp
    rw [tableLast_cons]
    have hs' : sortedKeys (y :: l) := (List.pairwise_cons.mp hs).2
    rcases List.mem_cons.mp hp with h | h
    · rw [h]
      exact le_trans (le_of_lt ((List.pairwise_cons.mp hs).1 y (List.mem_cons_self y l)))
        (ih hs' y (List.mem_cons_self y l))
    · exact ih hs' p h

theorem mono_head_le_last {x : ℚ × ℤ} {l : List (ℚ × ℤ)} (hm : valuesMono (x :: l)) :
    x.2 ≤ (tableLast (x :: l)).2 := by
  rcases List.mem_cons.mp (tableLast_mem x l) with h | h
  · rw [h]
  · exact (List.pairwise_cons.mp hm).1 _ h

theorem seg_interp_eval (cv : ℚ) :
    ∀ (pre : List (ℚ × ℤ)) (a : ℚ) (na : ℤ) (b : ℚ) (nb : ℤ) (post : List (ℚ × ℤ)),
    sortedKeys (pre ++ (a, na) :: (b, nb) :: post) → a < cv → cv ≤ b →
    seg_interp cv (pre ++ (a, na) :: (b, nb) :: post) =
      some (max MIN_SUBJECTS
        (ratCeil ((na : ℚ) + (cv - a) / (b - a) * ((nb : ℚ) - (na : ℚ))))) := by
  intro pre
  induction pre with
  | nil =>
    intro a na b nb post hs h1 h2
    rw [List.nil_append, seg_interp, if_pos ⟨le_of_lt h1, h2⟩]
  | cons x pre' ih =>
    intro a na b nb post hs h1 h2
    obtain ⟨x1, x2⟩ := x
    have htail : sortedKeys (pre' ++ (a, na) :: (b, nb) :: post) :=
      (List.pairwise_cons.mp hs).2
    obtain ⟨y, l', hyl⟩ : ∃ y l', pre' ++ (a, na) :: (b, nb) :: post = y :: l' := by
      cases pre' with
      | nil => exact ⟨_, _, rfl⟩
      | cons z zs => exact ⟨_, _, rfl⟩
    obtain ⟨y1, y2⟩ := y
    have hy_le : y1 ≤ a := by
      have hmem : (a, na) ∈ pre' ++ (a, na) :: (b, nb) :: post := by simp
      rw [hyl] at hmem
      have hs2 : sortedKeys ((y1, y2) :: l') := by rw [← hyl]; exact htail
      exact sorted_head_key_le hs2 hmem
    have hskip : ¬(x1 ≤ cv ∧ cv ≤ y1) := by
      rintro ⟨-, hcv⟩
      linarith
    rw [List.cons_append, hyl, seg_interp, if_neg hskip, ← hyl]
    exact ih a na b nb post htail h1 h2

theorem segment_cover (cv : ℚ) :
    ∀ (c0 : ℚ) (n0 : ℤ) (rest : List (ℚ × ℤ)),
    sortedKeys ((c0, n0) :: rest) → c0 < cv →
    cv < (tableLast ((c0, n0) :: rest)).1 →
    ∃ pre a na b nb post, (c0, n0) :: rest = pre ++ (a, na) :: (b, nb) :: post ∧
      a < cv ∧ cv ≤ b := by
  intro c0 n0 rest
  induction rest generalizing c0 n0 with
  | nil =>
    intro hs h1 h2
    exact absurd (lt_trans h1 h2) (lt_irrefl _)
  | cons y rest' ih =>
    intro hs h1 h2
    obtain ⟨c1, n1⟩ := y
    by_cases hcv : cv ≤ c1
    · exact ⟨[], c0, n0, c1, n1, rest', rfl, h1, hcv⟩
    · push_neg at hcv
      have hs' : sortedKeys ((c1, n1) :: rest') := (List.pairwise_cons.mp hs).2
      have h2' : cv < (tableLast ((c1, n1) :: rest')).1 := by
        rw [tableLast_cons] at h2
        exact h2
      obtain ⟨pre, a, na, b, nb, post, heq, ha, hb⟩ := ih c1 n1 hs' hcv h2'
      exact ⟨(c0, n0) :: pre, a, na, b, nb, post, by rw [List.cons_append, ← heq],
        ha, hb⟩

theorem interpolate_eval_low {c0 : ℚ} {n0 : ℤ} {rest : List (ℚ × ℤ)} {cv : ℚ}
    (h : cv ≤ c0) :
    interpolate_table ((c0, n0) :: rest) cv = max MIN_SUBJECTS n0 := by
  simp only [interpolate_table]
  rw [if_pos h]

theorem sorted_head_lt_last {c0 : ℚ} {n0 : ℤ} {y : ℚ × ℤ} {rest : List (ℚ × ℤ)}
    (hs : sortedKeys ((c0, n0) :: y :: rest)) :
    c0 < (tableLast ((c0, n0) :: y :: rest)).1 := by
  rw [tableLast_cons]
  have hmem := tableLast_mem y rest
  exact (List.pairwise_cons.mp hs).1 _ hmem

theorem tableLast_eq_getLastD (x : ℚ × ℤ) (l : List (ℚ × ℤ)) :
    tableLast (x :: l) = l.getLastD x := by
  unfold tableLast
  exact List.getLastD_cons _ _ _

theorem interpolate_eval_high {c0 : ℚ} {n0 : ℤ} {y : ℚ × ℤ} {rest : List (ℚ × ℤ)}
    {cv : ℚ} (hs : sortedKeys ((c0, n0) :: y :: rest))
    (h : (tableLast ((c0, n0) :: y :: rest)).1 ≤ cv) :
    interpolate_table ((c0, n0) :: y :: rest) cv =
      (tableLast ((c0, n0) :: y :: rest)).2 := by
  have hc0 : ¬cv ≤ c0 := by
    have := sorted_head_lt_last hs
    push_neg
    linarith
  rw [tableLast_eq_getLastD] at h ⊢
  simp only [interpolate_table]
  rw [if_neg hc0, if_pos h]

theorem interpolate_eval_mid {cv : ℚ}
    (pre : List (ℚ × ℤ)) (a : ℚ) (na : ℤ) (b : ℚ) (nb : ℤ) (post : List (ℚ × ℤ))
    (hs : sortedKeys (pre ++ (a, na) :: (b, nb) :: post)) (h1 : a < cv) (h2 : cv ≤ b)
    (h3 : cv < (tableLast (pre ++ (a, na) :: (b, nb) :: post)).1) :
    interpolate_table (pre ++ (a, na) :: (b, nb) :: post) cv =
      max MIN_SUBJECTS
        (ratCeil ((na : ℚ) + (cv - a) / (b - a) * ((nb : ℚ) - (na : ℚ)))) := by
  have hseg := seg_interp_eval cv pre a na b nb post hs h1 h2
  cases pre with
  | nil =>
    rw [List.nil_append] at hs hseg h3 ⊢
    have hc0 : ¬cv ≤ a := not_le.mpr h1
    rw [tableLast_eq_getLastD] at h3
    simp only [interpolate_table]
    rw [if_neg hc0, if_neg (not_le.mpr h3), hseg]
  | cons x pre' =>
    obtain ⟨x1, x2⟩ := x
    rw [List.cons_append] at hs hseg h3 ⊢
    have hc0 : ¬cv ≤ x1 := by
      have hmem : (a, na) ∈ (x1, x2) :: (pre' ++ (a, na) :: (b, nb) :: post) := by simp
      have := sorted_head_key_le hs hmem
      push_neg
      linarith
    rw [tableLast_eq_getLastD] at h3
    obtain ⟨y, l', hyl⟩ : ∃ y l', pre' ++ (a, na) :: (b, nb) :: post = y :: l' := by
      cases pre' with
      | nil => exact ⟨_, _, rfl⟩
      | cons z zs => exact ⟨_, _, rfl⟩
    rw [hyl] at hseg h3 ⊢
    simp only [interpolate_table]
    rw [if_neg hc0, if_neg (not_le.mpr h3), hseg]

theorem seg_interp_lower (cv : ℚ) :
    ∀ (l : List (ℚ × ℤ)) (a : ℚ) (na : ℤ) (v : ℤ),
    sortedKeys ((a, na) :: l) → valuesMono ((a, na) :: l) → a ≤ cv →
    seg_interp cv ((a, na) :: l) = some v → max MIN_SUBJECTS na ≤ v := by
  intro l
  induction l with
  | nil =>
    intro a na v _ _ _ h
    simp [seg_interp] at h
  | cons y l' ih =>
    intro a na v hs hm hcv h
    obtain ⟨b, nb⟩ := y
    have hab : a < b := (List.pairwise_cons.mp hs).1 _ (List.mem_cons_self _ _)
    have hval : na ≤ nb := (List.pairwise_cons.mp hm).1 _ (List.mem_cons_self _ _)
    rw [seg_interp] at h
    split at h
    · rename_i hcond
      rw [Option.some.injEq] at h
      rw [← h]
      have hraw := (seg_raw_bounds hab hval hcond.1 hcond.2).1
      exact max_le_max (le_refl _) (intCast_le_ratCeil hraw)
    · rename_i hcond
      have hbcv : b ≤ cv := by
        rcases not_and_or.mp hcond with hx | hx
        · exact absurd hcv hx
        · exact le_of_lt (not_le.mp hx)
      have := ih b nb v (List.pairwise_cons.mp hs).2 (List.pairwise_cons.mp hm).2 hbcv h
      exact le_trans (max_le_max (le_refl _) hval) this

theorem seg_interp_upper (cv : ℚ) :
    ∀ (l : List (ℚ × ℤ)) (a : ℚ) (na : ℤ) (v : ℤ),
    sortedKeys ((a, na) :: l) → valuesMono ((a, na) :: l) → a ≤ cv →
    seg_interp cv ((a, na) :: l) = some v →
    v ≤ max MIN_SUBJECTS (tableLast ((a, na) :: l)).2 := by
  intro l
  induction l with
  | nil =>
    intro a na v _ _ _ h
    simp [seg_interp] at h
  | cons y l' ih =>
    intro a na v hs hm hcv h
    obtain ⟨b, nb⟩ := y
    have hab : a < b := (List.pairwise_cons.mp hs).1 _ (List.mem_cons_self _ _)
    have hval : na ≤ nb := (List.pairwise_cons.mp hm).1 _ (List.mem_cons_self _ _)
    have hm' : valuesMono ((b, nb) :: l') := (List.pairwise_cons.mp hm).2
    have hlast : nb ≤ (tableLast ((b, nb) :: l')).2 := mono_head_le_last hm'
    rw [tableLast_cons]
    rw [seg_interp] at h
    split at h
    · rename_i hcond
      rw [Option.some.injEq] at h
      rw [← h]
      have hraw := (seg_raw_bounds hab hval hcond.1 hcond.2).2
      exact max_le_max (le_refl _) (le_trans (ratCeil_le_intCast hraw) hlast)
    · rename_i hcond
      have hbcv : b ≤ cv := by
        rcases not_and_or.mp hcond with hx | hx
        · exact absurd hcv hx
        · exact le_of_lt (not_le.mp hx)
      exact ih b nb v (List.pairwise_cons.mp hs).2 hm' hbcv h

theorem seg_interp_mono2 {cv1 cv2 : ℚ} (h12 : cv1 ≤ cv2) :
    ∀ (l : List (ℚ × ℤ)) (a : ℚ) (na : ℤ) (v1 v2 : ℤ),
    sortedKeys ((a, na) :: l) → valuesMono ((a, na) :: l) → a ≤ cv1 →
    seg_interp cv1 ((a, na) :: l) = some v1 →
    seg_interp cv2 ((a, na) :: l) = some v2 → v1 ≤ v2 := by
  intro l
  induction l with
  | nil =>
    intro a na v1 v2 _ _ _ h1 _
    simp [seg_interp] at h1
  | cons y l' ih =>
    intro a na v1 v2 hs hm hcv h1 h2
    obtain ⟨b, nb⟩ := y
    have hab : a < b := (List.pairwise_cons.mp hs).1 _ (List.mem_cons_self _ _)
    have hval : na ≤ nb := (List.pairwise_cons.mp hm).1 _ (List.mem_cons_self _ _)
    have hba : (0 : ℚ) < b - a := by linarith
    have hs' : sortedKeys ((b, nb) :: l') := (List.pairwise_cons.mp hs).2
    have hm' : valuesMono ((b, nb) :: l') := (List.pairwise_cons.mp hm).2
    rw [seg_interp] at h1 h2
    split at h1
    · rename_i hcond1
      rw [Option.some.injEq] at h1
      split at h2
      · rename_i hcond2
        rw [Option.some.injEq] at h2
        rw [← h1, ← h2]
        refine max_le_max (le_refl _) (ratCeil_mono ?_)
        have hslope : (0 : ℚ) ≤ ((nb : ℚ) - (na : ℚ)) / (b - a) := by
          apply div_nonneg _ (le_of_lt hba)
          have : (na : ℚ) ≤ (nb : ℚ) := by exact_mod_cast hval
          linarith
        have hnn : (0 : ℚ) ≤ (nb : ℚ) - (na : ℚ) := by
          have : (na : ℚ) ≤ (nb : ℚ) := by exact_mod_cast hval
          linarith
        have key : ((cv1 - a) / (b - a)) * ((nb : ℚ) - na) ≤
            ((cv2 - a) / (b - a)) * ((nb : ℚ) - na) :=
          mul_le_mul_of_nonneg_right
            ((div_le_div_iff_of_pos_right hba).mpr (by linarith)) hnn
        linarith
      · rename_i hcond2
        have hbcv2 : b ≤ cv2 := by
          rcases not_and_or.mp hcond2 with hx | hx
          · exact absurd (le_trans hcv h12) hx
          · exact le_of_lt (not_le.mp hx)
        have hup : v1 ≤ max MIN_SUBJECTS nb := by
          rw [← h1]
          have hraw := (seg_raw_bounds hab hval hcond1.1 hcond1.2).2
          exact max_le_max (le_refl _) (ratCeil_le_intCast hraw)
        have hlow := seg_interp_lower cv2 l' b nb v2 hs' hm' hbcv2 h2
        exact le_trans hup hlow
    · rename_i hcond1
      have hbcv1 : b ≤ cv1 := by
        rcases not_and_or.mp hcond1 with hx | hx
        · exact absurd hcv hx
        · exact le_of_lt (not_le.mp hx)
      have hcond2 : ¬(a ≤ cv2 ∧ cv2 ≤ b) := by
        rintro ⟨-, hx⟩
        have hb_lt : b < cv1 := by
          rcases not_and_or.mp hcond1 with hy | hy
          · exact absurd hcv hy
          · exact not_le.mp hy
        linarith
      rw [if_neg hcond2] at h2
      exact ih b nb v1 v2 hs' hm' hbcv1 h1 h2

theorem interpolate_mid_seg {c0 : ℚ} {n0 : ℤ} {rest : List (ℚ × ℤ)} {cv : ℚ}
    (hs : sortedKeys ((c0, n0) :: rest)) (h1 : c0 < cv)
    (h2 : cv < (tableLast ((c0, n0) :: rest)).1) :
    ∃ v, seg_interp cv ((c0, n0) :: rest) = some v ∧
      interpolate_table ((c0, n0) :: rest) cv = v := by
  obtain ⟨pre, a, na, b, nb, post, heq, ha, hb⟩ := segment_cover cv c0 n0 rest hs h1 h2
  refine ⟨max MIN_SUBJECTS
    (ratCeil ((na : ℚ) + (cv - a) / (b - a) * ((nb : ℚ) - (na : ℚ)))), ?_, ?_⟩
  · rw [heq]
    exact seg_interp_eval cv pre a na b nb post (heq ▸ hs) ha hb
  · rw [heq]
    exact interpolate_eval_mid pre a na b nb post (heq ▸ hs) ha hb (heq ▸ h2)

theorem interpolate_table_mono {c0 : ℚ} {n0 : ℤ} {rest : List (ℚ × ℤ)}
    (hs : sortedKeys ((c0, n0) :: rest)) (hm : valuesMono ((c0, n0) :: rest))
    (hlast : MIN_SUBJECTS ≤ (tableLast ((c0, n0) :: rest)).2)
    {cv1 cv2 : ℚ} (h12 : cv1 ≤ cv2) :
    interpolate_table ((c0, n0) :: rest) cv1 ≤
      interpolate_table ((c0, n0) :: rest) cv2 := by
  have hn0lv : n0 ≤ (tableLast ((c0, n0) :: rest)).2 := mono_head_le_last hm
  have hmaxlv : max MIN_SUBJECTS (tableLast ((c0, n0) :: rest)).2 =
      (tableLast ((c0, n0) :: rest)).2 := max_eq_right hlast
  cases rest with
  | nil =>
    have hl : tableLast [(c0, n0)] = (c0, n0) := rfl
    rw [hl] at hlast
    have hconst : ∀ cv : ℚ, interpolate_table [(c0, n0)] cv = n0 := by
      intro cv
      simp only [interpolate_table, List.getLastD_nil]
      by_cases h : cv ≤ c0
      · rw [if_pos h]
        exact max_eq_right hlast
      · rw [if_neg h]
        rw [if_pos (le_of_lt (not_le.mp h))]
    rw [hconst cv1, hconst cv2]
  | cons y rest' =>
    by_cases ha1 : cv1 ≤ c0
    · rw [interpolate_eval_low ha1]
      by_cases ha2 : cv2 ≤ c0
      · rw [interpolate_eval_low ha2]
      · by_cases hb2 : (tableLast ((c0, n0) :: y :: rest')).1 ≤ cv2
        · rw [interpolate_eval_high hs hb2]
          exact le_trans (max_le_max (le_refl _) hn0lv) (le_of_eq hmaxlv)
        · obtain ⟨v2, hseg2, hv2⟩ :=
            interpolate_mid_seg hs (not_le.mp ha2) (not_le.mp hb2)
          rw [hv2]
          exact seg_interp_lower cv2 _ c0 n0 v2 hs hm
            (le_of_lt (not_le.mp ha2)) hseg2
    · have hc0cv1 : c0 < cv1 := not_le.mp ha1
      by_cases hb1 : (tableLast ((c0, n0) :: y :: rest')).1 ≤ cv1
      · have hb2 : (tableLast ((c0, n0) :: y :: rest')).1 ≤ cv2 := le_trans hb1 h12
        rw [interpolate_eval_high hs hb1, interpolate_eval_high hs hb2]
      · obtain ⟨v1, hseg1, hv1⟩ := interpolate_mid_seg hs hc0cv1 (not_le.mp hb1)
        rw [hv1]
        by_cases hb2 : (tableLast ((c0, n0) :: y :: rest')).1 ≤ cv2
        · rw [interpolate_eval_high hs hb2]
          exact le_trans
            (seg_interp_upper cv1 _ c0 n0 v1 hs hm (le_of_lt hc0cv1) hseg1)
            (le_of_eq hmaxlv)
        · have hc0cv2 : c0 < cv2 := lt_of_lt_of_le hc0cv1 h12
          obtain ⟨v2, hseg2, hv2⟩ := interpolate_mid_seg hs hc0cv2 (not_le.mp hb2)
          rw [hv2]
          exact seg_interp_mono2 h12 _ c0 n0 v1 v2 hs hm
            (le_of_lt hc0cv1) hseg1 hseg2

theorem interpolate_ge_min {c0 : ℚ} {n0 : ℤ} {rest : List (ℚ × ℤ)}
    (hlast : MIN_SUBJECTS ≤ (rest.getLastD (c0, n0)).2) (cv : ℚ) :
    MIN_SUBJECTS ≤ interpolate_table ((c0, n0) :: rest) cv := by
  simp only [interpolate_table]
  split_ifs
  · exact le_max_left _ _
  · exact hlast
  · rcases hseg : seg_interp cv ((c0, n0) :: rest) with _ | v
    · simp only [hseg]
      exact le_max_left _ _
    · simp only [hseg]
      exact seg_interp_ge_min cv _ v hseg

/-- Claim C5 counterexample: the NTID table is not monotone — at
`cv = 4` the stringent NTID table demands 54 subjects, at `cv = 10`
only 14, both through `_calculate_n_base` with the NTI flag set. -/
theorem C5_ntid_counterexample :
    (4 : ℚ) ≤ 10 ∧
    calculate_n_base 4 1 4 false true = 54 ∧
    calculate_n_base 10 1 4 false true = 14 ∧
    interpolate_table NTID_2x2x4_0975 4 = 54 ∧
    interpolate_table NTID_2x2x4_0975 10 = 14 := by
  have h14 : ratCeil ((14 : ℚ)) = 14 := ratCeil_eq_of (by norm_num) (by norm_num)
  have hi4 : interpolate_table NTID_2x2x4_0975 4 = 54 := by decide
  have hi10 : interpolate_table NTID_2x2x4_0975 10 = 14 := by
    norm_num [interpolate_table, seg_interp, NTID_2x2x4_0975, MIN_SUBJECTS, h14]
  refine ⟨by norm_num, ?_, ?_, hi4, hi10⟩
  · norm_num [calculate_n_base, MIN_SUBJECTS, hi4]
  · norm_num [calculate_n_base, MIN_SUBJECTS, hi10]

/-- Claim C5 (amended): for each fixed TOST or scaled-limits table the
interpolated base size is non-decreasing in the CV; the NTID tables
violate monotonicity (see the counterexample). -/
theorem C5_monotone_tables :
    ∀ tbl ∈ monotoneTables, ∀ cv1 cv2 : ℚ, cv1 ≤ cv2 →
      interpolate_table tbl cv1 ≤ interpolate_table tbl cv2 ∧
      max MIN_SUBJECTS (interpolate_table tbl cv1) ≤
        max MIN_SUBJECTS (interpolate_table tbl cv2) := by
  intro tbl htbl cv1 cv2 h12
  have hmono : interpolate_table tbl cv1 ≤ interpolate_table tbl cv2 := by
    simp only [monotoneTables, List.mem_cons, List.not_mem_nil, or_false] at htbl
    rcases htbl with rfl | rfl | rfl | rfl | rfl | rfl | rfl <;>
      exact interpolate_table_mono (by decide) (by decide) (by decide) h12
  exact ⟨hmono, max_le_max (le_refl _) hmono⟩

/-- Witness for `C5_monotone_tables`. -/
theorem C5_monotone_tables_witness :
    interpolate_table TOST_2x2_095 20 ≤ interpolate_table TOST_2x2_095 33 :=
  (C5_monotone_tables TOST_2x2_095 (by decide) 20 33 (by decide)).1

theorem interpolate_clauses_of {c0 : ℚ} {n0 : ℤ} {y : ℚ × ℤ} {rest : List (ℚ × ℤ)}
    (hs : sortedKeys ((c0, n0) :: y :: rest))
    (hlast : MIN_SUBJECTS ≤ (tableLast ((c0, n0) :: y :: rest)).2) (cv : ℚ) :
    (cv ≤ (tableHead ((c0, n0) :: y :: rest)).1 →
      interpolate_table ((c0, n0) :: y :: rest) cv =
        max MIN_SUBJECTS (tableHead ((c0, n0) :: y :: rest)).2) ∧
    ((tableLast ((c0, n0) :: y :: rest)).1 ≤ cv →
      interpolate_table ((c0, n0) :: y :: rest) cv =
        (tableLast ((c0, n0) :: y :: rest)).2) ∧
    (∀ (pre : List (ℚ × ℤ)) (a : ℚ) (na : ℤ) (b : ℚ) (nb : ℤ) (post : List (ℚ × ℤ)),
      (c0, n0) :: y :: rest = pre ++ (a, na) :: (b, nb) :: post → a < cv → cv < b →
      interpolate_table ((c0, n0) :: y :: rest) cv =
        max MIN_SUBJECTS
          (ratCeil ((na : ℚ) + (cv - a) / (b - a) * ((nb : ℚ) - (na : ℚ))))) ∧
    MIN_SUBJECTS ≤ interpolate_table ((c0, n0) :: y :: rest) cv := by
  refine ⟨?_, ?_, ?_, ?_⟩
  · intro h
    exact interpolate_eval_low h
  · intro h
    exact interpolate_eval_high hs h
  · intro pre a na b nb post heq h1 h2
    have hmem : (b, nb) ∈ pre ++ (a, na) :: (b, nb) :: post := by simp
    rw [← heq] at hmem
    have hble := sorted_key_le_last hs _ hmem
    rw [heq]
    refine interpolate_eval_mid pre a na b nb post (heq ▸ hs) h1 (le_of_lt h2) ?_
    rw [← heq]
    exact lt_of_lt_of_le h2 hble
  · refine interpolate_ge_min ?_ cv
    rw [tableLast_eq_getLastD] at hlast
    exact hlast

/-- Claim C3 (amended): for every calculator table, at or below the
lowest breakpoint the result is `max(12, lowest value)` (not the bare
lowest value — the 95% crossover table starts at 8); at or above the
highest breakpoint it is the highest value unchanged; strictly between
two adjacent breakpoints it is `max(12, ceil(linear interpolation))`;
and the result is always at least 12. -/
theorem C3_interpolation_clauses :
    ∀ tbl ∈ calculatorTables, ∀ cv : ℚ,
      (cv ≤ (tableHead tbl).1 →
        interpolate_table tbl cv = max MIN_SUBJECTS (tableHead tbl).2) ∧
      ((tableLast tbl).1 ≤ cv →
        interpolate_table tbl cv = (tableLast tbl).2) ∧
      (∀ (pre : List (ℚ × ℤ)) (a : ℚ) (na : ℤ) (b : ℚ) (nb : ℤ)
        (post : List (ℚ × ℤ)),
        tbl = pre ++ (a, na) :: (b, nb) :: post → a < cv → cv < b →
        interpolate_table tbl cv =
          max MIN_SUBJECTS
            (ratCeil ((na : ℚ) + (cv - a) / (b - a) * ((nb : ℚ) - (na : ℚ))))) ∧
      MIN_SUBJECTS ≤ interpolate_table tbl cv := by
  intro tbl htbl cv
  simp only [calculatorTables, List.mem_cons, List.not_mem_nil, or_false] at htbl
  rcases htbl with rfl | rfl | rfl | rfl | rfl | rfl | rfl | rfl | rfl <;>
    exact interpolate_clauses_of (by decide) (by decide) cv

/-- Claim C3 counterexample: below the lowest breakpoint of the 95%
crossover table the result is the 12-subject floor, not the table's
lowest value 8; and strictly between breakpoints 10 and 15 the result is
the floor 12, not the rounded-up interpolation 9. -/
theorem C3_interpolation_counterexample :
    tableHead TOST_2x2_095 = (10, 8) ∧
    interpolate_table TOST_2x2_095 5 = 12 ∧
    interpolate_table TOST_2x2_095 5 ≠ 8 ∧
    ratCeil ((8 : ℚ) + (11 - 10) / (15 - 10) * (12 - 8)) = 9 ∧
    interpolate_table TOST_2x2_095 11 = 12 ∧
    interpolate_table TOST_2x2_095 11 ≠ 9 := by
  have h9 : ratCeil ((44 : ℚ) / 5) = 9 := ratCeil_eq_of (by norm_num) (by norm_num)
  have h11 : interpolate_table TOST_2x2_095 11 = 12 := by
    norm_num [interpolate_table, seg_interp, TOST_2x2_095, MIN_SUBJECTS, h9]
  refine ⟨by decide, by decide, by decide, ?_, h11, by rw [h11]; decide⟩
  have : (8 : ℚ) + (11 - 10) / (15 - 10) * (12 - 8) = 44 / 5 := by norm_num
  rw [this, h9]

/-- Witness for `C3_interpolation_clauses`. -/
theorem C3_interpolation_clauses_witness :
    interpolate_table TOST_2x2_095 5 =
      max MIN_SUBJECTS (tableHead TOST_2x2_095).2 :=
  (C3_interpolation_clauses TOST_2x2_095 (by decide) 5).1 (by decide)

/-! ## Blood budget lemmas -/

theorem ratFloor_eq_floor (q : ℚ) : ratFloor q = Int.floor q := rfl

theorem describe_sequences_period_range (d : DesignType) :
    1 ≤ (describe_sequences d).1 ∧ (describe_sequences d).1 ≤ 4 := by
  cases d <;> exact ⟨by decide, by decide⟩

theorem blood_numeric (n : ℕ) (g lab avail denom : ℚ) (fkMax fkPer : ℤ)
    (h1 : 1 ≤ n) (h4 : n ≤ 4) (_hg0 : 0 ≤ g) (hg10 : g ≤ 10)
    (hlab : lab = 14 * (n : ℚ) + 38 + g)
    (havail : avail = MAX_BLOOD_PER_SUBJECT_ML - lab + (n : ℚ) * FLUSH_ML)
    (hdenom : denom = (n : ℚ) * (FK_SAMPLE_ML + FLUSH_ML))
    (hmax : fkMax = ratFloor (avail / denom))
    (hper : fkPer = max (min fkMax MAX_POINTS_PER_PERIOD) MIN_POINTS_PER_PERIOD) :
    MIN_POINTS_PER_PERIOD ≤ fkPer ∧ fkPer ≤ MAX_POINTS_PER_PERIOD ∧
    lab + ((fkPer * (n : ℤ) : ℤ) : ℚ) * FK_SAMPLE_ML +
      (((fkPer * (n : ℤ) - (n : ℤ)) : ℤ) : ℚ) * FLUSH_ML ≤
      MAX_BLOOD_PER_SUBJECT_ML := by
  simp only [MAX_BLOOD_PER_SUBJECT_ML, FLUSH_ML, FK_SAMPLE_ML] at havail hdenom ⊢
  have hnQ : (1 : ℚ) ≤ (n : ℚ) := by exact_mod_cast h1
  have hnQ4 : (n : ℚ) ≤ 4 := by exact_mod_cast h4
  have hdenom_pos : 0 < denom := by rw [hdenom]; nlinarith
  have hfloor11 : MIN_POINTS_PER_PERIOD ≤ fkMax := by
    rw [hmax, ratFloor_eq_floor, Int.le_floor, le_div_iff₀ hdenom_pos, havail,
      hdenom, hlab]
    simp only [MIN_POINTS_PER_PERIOD]
    push_cast
    nlinarith
  have hfloor_le : ((fkMax : ℤ) : ℚ) ≤ avail / denom := by
    rw [hmax, ratFloor_eq_floor]
    exact Int.floor_le _
  have hper_eq : fkPer = min fkMax MAX_POINTS_PER_PERIOD := by
    rw [hper]
    exact max_eq_left (le_min hfloor11
      (by norm_num [MIN_POINTS_PER_PERIOD, MAX_POINTS_PER_PERIOD]))
  refine ⟨?_, ?_, ?_⟩
  · rw [hper]
    exact le_max_right _ _
  · rw [hper_eq]
    exact min_le_right _ _
  · have hfk_le_max : fkPer ≤ fkMax := by
      rw [hper_eq]
      exact min_le_left _ _
    have hfkQ : ((fkPer : ℤ) : ℚ) * denom ≤ avail := by
      have hle : ((fkPer : ℤ) : ℚ) ≤ avail / denom :=
        le_trans (by exact_mod_cast hfk_le_max) hfloor_le
      calc ((fkPer : ℤ) : ℚ) * denom ≤ (avail / denom) * denom :=
            mul_le_mul_of_nonneg_right hle (le_of_lt hdenom_pos)
        _ = avail := div_mul_cancel₀ _ (ne_of_gt hdenom_pos)
    have hexp : ((fkPer * (n : ℤ) : ℤ) : ℚ) * 5 +
        (((fkPer * (n : ℤ) - (n : ℤ)) : ℤ) : ℚ) * (1 / 2) =
        ((fkPer : ℤ) : ℚ) * denom - (n : ℚ) * (1 / 2) := by
      rw [hdenom]
      push_cast
      ring
    rw [havail] at hfkQ
    linarith [hexp, hfkQ]

theorem blood_sampling_invariants (n : ℕ) (h1 : 1 ≤ n) (h4 : n ≤ 4)
    (tHalf tmax : ℚ) (gen : Bool) :
    (MIN_POINTS_PER_PERIOD ≤
        (calculate_blood_sampling n tHalf tmax gen).fkPointsPerPeriod ∧
      (calculate_blood_sampling n tHalf tmax gen).fkPointsPerPeriod ≤
        MAX_POINTS_PER_PERIOD) ∧
    ((calculate_blood_sampling n tHalf tmax gen).samplingDurationHours = 24 ∨
      (calculate_blood_sampling n tHalf tmax gen).samplingDurationHours = 36 ∨
      (calculate_blood_sampling n tHalf tmax gen).samplingDurationHours = 48 ∨
      (calculate_blood_sampling n tHalf tmax gen).samplingDurationHours = 72) ∧
    (calculate_blood_sampling n tHalf tmax gen).fkTotalPoints =
      (calculate_blood_sampling n tHalf tmax gen).fkPointsPerPeriod * (n : ℤ) ∧
    (calculate_blood_sampling n tHalf tmax gen).labVolumeMl +
        ((calculate_blood_sampling n tHalf tmax gen).fkTotalPoints : ℚ) *
          FK_SAMPLE_ML +
        (calculate_blood_sampling n tHalf tmax gen).flushVolumeMl ≤
      MAX_BLOOD_PER_SUBJECT_ML ∧
    (calculate_blood_sampling n tHalf tmax gen).totalVolumeMl ≤
      MAX_BLOOD_PER_SUBJECT_ML := by
  have hkey := blood_numeric n (if gen then GENETICS_ML else 0)
    (((2 + n : ℕ) : ℚ) * BHAK_SAMPLE_ML + ((2 + n : ℕ) : ℚ) * KAK_SAMPLE_ML
      + SEROLOGY_ML + (if gen then GENETICS_ML else 0))
    (MAX_BLOOD_PER_SUBJECT_ML -
      (((2 + n : ℕ) : ℚ) * BHAK_SAMPLE_ML + ((2 + n : ℕ) : ℚ) * KAK_SAMPLE_ML
        + SEROLOGY_ML + (if gen then GENETICS_ML else 0)) + (n : ℚ) * FLUSH_ML)
    ((n : ℚ) * (FK_SAMPLE_ML + FLUSH_ML)) _ _ h1 h4
    (by cases gen <;> norm_num [GENETICS_ML])
    (by cases gen <;> norm_num [GENETICS_ML])
    (by simp only [BHAK_SAMPLE_ML, KAK_SAMPLE_ML, SEROLOGY_ML]; push_cast; ring)
    rfl rfl rfl rfl
  obtain ⟨hk1, hk2, hk3⟩ := hkey
  refine ⟨⟨hk1, hk2⟩, ?_, rfl, hk3, hk3⟩
  rw [show (calculate_blood_sampling n tHalf tmax gen).samplingDurationHours =
      (if tmax + min (3 * tHalf) 72 ≤ 24 then (24 : ℚ)
       else if tmax + min (3 * tHalf) 72 ≤ 36 then 36
       else if tmax + min (3 * tHalf) 72 ≤ 48 then 48 else 72) from rfl]
  split_ifs <;> simp

/-- Claim C7: every blood plan produced for an engine-selected design
(whose period count `_describe_sequences` keeps between 1 and 4) has a
per-period PK point count in [11, 20], a sampling duration in
{24, 36, 48, 72} hours, and a per-subject volume
`lab + points × periods × 5.0 mL + flush` within the 450 mL ceiling. -/
theorem C7_blood_plan_invariants (d : DesignType) (tHalf tmax : ℚ) (gen : Bool) :
    (MIN_POINTS_PER_PERIOD ≤
        (calculate_blood_sampling (describe_sequences d).1 tHalf tmax
          gen).fkPointsPerPeriod ∧
      (calculate_blood_sampling (describe_sequences d).1 tHalf tmax
          gen).fkPointsPerPeriod ≤ MAX_POINTS_PER_PERIOD) ∧
    ((calculate_blood_sampling (describe_sequences d).1 tHalf tmax
        gen).samplingDurationHours = 24 ∨
      (calculate_blood_sampling (describe_sequences d).1 tHalf tmax
        gen).samplingDurationHours = 36 ∨
      (calculate_blood_sampling (describe_sequences d).1 tHalf tmax
        gen).samplingDurationHours = 48 ∨
      (calculate_blood_sampling (describe_sequences d).1 tHalf tmax
        gen).samplingDurationHours = 72) ∧
    (calculate_blood_sampling (describe_sequences d).1 tHalf tmax
        gen).fkTotalPoints =
      (calculate_blood_sampling (describe_sequences d).1 tHalf tmax
        gen).fkPointsPerPeriod * ((describe_sequences d).1 : ℤ) ∧
    (calculate_blood_sampling (describe_sequences d).1 tHalf tmax
          gen).labVolumeMl +
        ((calculate_blood_sampling (describe_sequences d).1 tHalf tmax
          gen).fkTotalPoints : ℚ) * FK_SAMPLE_ML +
        (calculate_blood_sampling (describe_sequences d).1 tHalf tmax
          gen).flushVolumeMl ≤ MAX_BLOOD_PER_SUBJECT_ML ∧
    (calculate_blood_sampling (describe_sequences d).1 tHalf tmax
        gen).totalVolumeMl ≤ MAX_BLOOD_PER_SUBJECT_ML :=
  blood_sampling_invariants (describe_sequences d).1
    (describe_sequences_period_range d).1 (describe_sequences_period_range d).2
    tHalf tmax gen

/-! ## Sampling-schedule lemmas: generic list facts -/

theorem foldl_pick_mem {α : Type} (f : α → α → α)
    (hf : ∀ a b, f a b = a ∨ f a b = b) :
    ∀ (l : List α) (init : α), l.foldl f init ∈ init :: l := by
  intro l
  induction l with
  | nil => intro init; simp
  | cons t ts ih =>
    intro init
    rw [List.foldl_cons]
    have h := ih (f init t)
    rw [List.mem_cons] at h
    rcases h with h | h
    · rw [h]
      rcases hf init t with hft | hft <;> rw [hft]
      · exact List.mem_cons_self _ _
      · exact List.mem_cons_of_mem _ (List.mem_cons_self _ _)
    · exact List.mem_cons_of_mem _ (List.mem_cons_of_mem _ h)

theorem le_getLastD_of_sorted :
    ∀ (l : List ℚ), List.Pairwise (· < ·) l → ∀ (d : ℚ), ∀ t ∈ l, t ≤ l.getLastD d := by
  intro l
  induction l with
  | nil => intro _ d t ht; simp at ht
  | cons x xs ih =>
    intro h d t ht
    rw [List.getLastD_cons]
    have hp := List.pairwise_cons.mp h
    rcases List.mem_cons.mp ht with rfl | hmem
    · cases xs with
      | nil => simp [List.getLastD]
      | cons y ys =>
        exact le_trans (le_of_lt (hp.1 y (List.mem_cons_self _ _)))
          (ih hp.2 t y (List.mem_cons_self _ _))
    · exact ih hp.2 x t hmem

theorem getLastD_mem :
    ∀ (l : List ℚ), l ≠ [] → ∀ (d : ℚ), l.getLastD d ∈ l := by
  intro l
  induction l with
  | nil => intro h; exact absurd rfl h
  | cons x xs ih =>
    intro _ d
    rw [List.getLastD_cons]
    cases xs with
    | nil => simp [List.getLastD]
    | cons y ys => exact List.mem_cons_of_mem _ (ih (by simp) x)

theorem getLastD_indep :
    ∀ (l : List ℚ), l ≠ [] → ∀ (d1 d2 : ℚ), l.getLastD d1 = l.getLastD d2 := by
  intro l hl d1 d2
  cases l with
  | nil => exact absurd rfl hl
  | cons x xs => rw [List.getLastD_cons, List.getLastD_cons]

theorem mem_insertSortedU (x : ℚ) :
    ∀ (l : List ℚ) (a : ℚ), a ∈ insertSortedU x l ↔ a = x ∨ a ∈ l := by
  intro l
  induction l with
  | nil => intro a; simp [insertSortedU]
  | cons y ys ih =>
    intro a
    rw [insertSortedU]
    by_cases h1 : x < y
    · rw [if_pos h1, List.mem_cons]
    · rw [if_neg h1]
      by_cases h2 : x = y
      · subst h2
        rw [if_pos rfl]
        constructor
        · exact Or.inr
        · rintro (rfl | h)
          · exact List.mem_cons_self _ _
          · exact h
      · rw [if_neg h2, List.mem_cons, ih a, List.mem_cons]
        tauto

theorem pairwise_insertSortedU (x : ℚ) :
    ∀ (l : List ℚ), List.Pairwise (· < ·) l →
      List.Pairwise (· < ·) (insertSortedU x l) := by
  intro l
  induction l with
  | nil => intro _; simp [insertSortedU]
  | cons y ys ih =>
    intro h
    have hp := List.pairwise_cons.mp h
    rw [insertSortedU]
    by_cases h1 : x < y
    · rw [if_pos h1]
      refine List.pairwise_cons.mpr ⟨?_, h⟩
      intro t ht
      rcases List.mem_cons.mp ht with rfl | hmem
      · exact h1
      · exact lt_trans h1 (hp.1 t hmem)
    · rw [if_neg h1]
      by_cases h2 : x = y
      · rw [if_pos h2]; exact h
      · rw [if_neg h2]
        have hyx : y < x := lt_of_le_of_ne (not_lt.mp h1) (Ne.symm h2)
        refine List.pairwise_cons.mpr ⟨?_, ih hp.2⟩
        intro t ht
        rcases (mem_insertSortedU x ys t).mp ht with rfl | hmem
        · exact hyx
        · exact hp.1 t hmem

theorem length_insertSortedU (x : ℚ) :
    ∀ (l : List ℚ), x ∉ l → (insertSortedU x l).length = l.length + 1 := by
  intro l
  induction l with
  | nil => intro _; simp [insertSortedU]
  | cons y ys ih =>
    intro hx
    rw [insertSortedU]
    have h2 : x ≠ y := fun h => hx (h ▸ List.mem_cons_self _ _)
    by_cases h1 : x < y
    · rw [if_pos h1]; simp
    · rw [if_neg h1, if_neg h2]
      simp [ih (fun h => hx (List.mem_cons_of_mem _ h))]

theorem pairwise_sortedDedup :
    ∀ (l : List ℚ), List.Pairwise (· < ·) (sortedDedup l) := by
  intro l
  induction l with
  | nil => simp [sortedDedup]
  | cons x xs ih =>
    rw [sortedDedup, List.foldr_cons]
    exact pairwise_insertSortedU x _ ih

theorem mem_sortedDedup :
    ∀ (l : List ℚ) (a : ℚ), a ∈ sortedDedup l ↔ a ∈ l := by
  intro l
  induction l with
  | nil => intro a; simp [sortedDedup]
  | cons x xs ih =>
    intro a
    rw [sortedDedup, List.foldr_cons, mem_insertSortedU, List.mem_cons]
    have h := ih a
    rw [sortedDedup] at h
    rw [h]

theorem nodup_of_pairwise_lt {l : List ℚ} (h : List.Pairwise (· < ·) l) :
    l.Nodup := h.imp ne_of_lt

theorem snap_to_grid_mem (v : ℚ) (grid : List ℚ) (h : grid ≠ []) :
    snap_to_grid v grid ∈ grid := by
  cases grid with
  | nil => exact absurd rfl h
  | cons g gs =>
    rw [snap_to_grid]
    exact foldl_pick_mem _
      (fun a b => by by_cases hc : |b - v| < |a - v| <;> simp [hc]) gs g

theorem snap_fold_eq_getLastD (v : ℚ) :
    ∀ (gs : List ℚ) (g : ℚ), List.Pairwise (· < ·) (g :: gs) →
      (∀ t ∈ g :: gs, t ≤ v) →
      gs.foldl (fun best t => if |t - v| < |best - v| then t else best) g
        = gs.getLastD g := by
  intro gs
  induction gs with
  | nil => intro g _ _; rfl
  | cons t ts ih =>
    intro g hp hb
    simp only [List.foldl_cons]
    rw [List.getLastD_cons]
    have hgt : g < t := (List.pairwise_cons.mp hp).1 t (List.mem_cons_self _ _)
    have htv : t ≤ v := hb t (List.mem_cons_of_mem _ (List.mem_cons_self _ _))
    have hgv : g ≤ v := hb g (List.mem_cons_self _ _)
    have hcond : |t - v| < |g - v| := by
      rw [abs_of_nonpos (by linarith), abs_of_nonpos (by linarith)]
      linarith
    rw [if_pos hcond]
    exact ih t (List.pairwise_cons.mp hp).2
      (fun s hs => hb s (List.mem_cons_of_mem _ hs))

theorem snap_to_grid_eq_getLastD (v : ℚ) (grid : List ℚ)
    (hp : List.Pairwise (· < ·) grid) (hb : ∀ t ∈ grid, t ≤ v)
    (h : grid ≠ []) (d : ℚ) : snap_to_grid v grid = grid.getLastD d := by
  cases grid with
  | nil => exact absurd rfl h
  | cons g gs =>
    rw [snap_to_grid, List.getLastD_cons]
    exact snap_fold_eq_getLastD v gs g hp hb

theorem argmin_abs_mem (mid : ℚ) (l : List ℚ) (c : ℚ)
    (h : argmin_abs mid l = some c) : c ∈ l := by
  cases l with
  | nil => exact Option.noConfusion h
  | cons a as =>
    rw [argmin_abs, Option.some.injEq] at h
    have hm := foldl_pick_mem
      (fun best t => if |t - mid| < |best - mid| then t else best)
      (fun x y => by by_cases hc : |y - mid| < |x - mid| <;> simp [hc]) as a
    exact h ▸ hm

theorem best_insert_aux_nil :
    ∀ (l : List ℚ) (g : ℚ), best_insert_aux [] l g none = none := by
  intro l
  induction l with
  | nil => intro g; rfl
  | cons a tail ih =>
    intro g
    cases tail with
    | nil => rfl
    | cons b rest =>
      simp only [best_insert_aux, List.filter_nil, argmin_abs]
      split_ifs <;> exact ih g

theorem best_insert_aux_some (rem : List ℚ) :
    ∀ (l : List ℚ) (g c : ℚ), best_insert_aux rem l g (some c) ≠ none := by
  intro l
  induction l with
  | nil => intro g c h; exact Option.noConfusion h
  | cons a tail ih =>
    intro g c
    cases tail with
    | nil => intro h; exact Option.noConfusion h
    | cons b rest =>
      simp only [best_insert_aux]
      by_cases hg : g < b - a
      · rw [if_pos hg]
        cases hm : argmin_abs ((a + b) / 2)
            (rem.filter (fun t => decide (a < t) && decide (t < b))) with
        | none => exact ih g c
        | some c2 => exact ih (b - a) c2
      · rw [if_neg hg]; exact ih g c

theorem best_insert_aux_mem (rem : List ℚ) :
    ∀ (l : List ℚ) (g : ℚ) (acc : Option ℚ),
      (∀ c, acc = some c → c ∈ rem) →
      ∀ u, best_insert_aux rem l g acc = some u → u ∈ rem := by
  intro l
  induction l with
  | nil => intro g acc hacc u h; exact hacc u h
  | cons a tail ih =>
    intro g acc hacc u h
    cases tail with
    | nil => exact hacc u h
    | cons b rest =>
      simp only [best_insert_aux] at h
      by_cases hg : g < b - a
      · rw [if_pos hg] at h
        cases hm : argmin_abs ((a + b) / 2)
            (rem.filter (fun t => decide (a < t) && decide (t < b))) with
        | none =>
          rw [hm] at h
          exact ih g acc hacc u h
        | some c2 =>
          rw [hm] at h
          refine ih (b - a) (some c2) ?_ u h
          intro c hc
          rw [Option.some.injEq] at hc
          subst hc
          exact List.mem_of_mem_filter (argmin_abs_mem _ _ _ hm)
      · rw [if_neg hg] at h
        exact ih g acc hacc u h

theorem best_insert_aux_progress (rem : List ℚ) (t : ℚ) (ht : t ∈ rem) :
    ∀ (p : List ℚ) (x y : ℚ) (q : List ℚ) (g : ℚ) (acc : Option ℚ),
      (acc = none → g = 0) → x < t → t < y →
      best_insert_aux rem (p ++ x :: y :: q) g acc ≠ none := by
  intro p
  induction p with
  | nil =>
    intro x y q g acc hacc hxt hty
    simp only [List.nil_append, best_insert_aux]
    by_cases hg : g < y - x
    · rw [if_pos hg]
      cases hm : argmin_abs ((x + y) / 2)
          (rem.filter (fun s => decide (x < s) && decide (s < y))) with
      | none =>
        exfalso
        have htf : t ∈ rem.filter (fun s => decide (x < s) && decide (s < y)) := by
          rw [List.mem_filter]
          exact ⟨ht, by simp [hxt, hty]⟩
        cases hl : rem.filter (fun s => decide (x < s) && decide (s < y)) with
        | nil => rw [hl] at htf; exact absurd htf (List.not_mem_nil t)
        | cons c cs => rw [hl] at hm; simp [argmin_abs] at hm
      | some c =>
        exact best_insert_aux_some rem (y :: q) (y - x) c
    · rw [if_neg hg]
      cases acc with
      | some c => exact best_insert_aux_some rem (y :: q) g c
      | none =>
        exfalso
        apply hg
        rw [hacc rfl]
        linarith
  | cons z p2 ih =>
    intro x y q g acc hacc hxt hty
    cases hpp : p2 ++ x :: y :: q with
    | nil =>
      exact absurd hpp (List.append_ne_nil_of_right_ne_nil p2 (by simp))
    | cons b rest =>
      rw [List.cons_append, hpp]
      simp only [best_insert_aux]
      by_cases hg : g < b - z
      · rw [if_pos hg]
        cases hm : argmin_abs ((z + b) / 2)
            (rem.filter (fun s => decide (z < s) && decide (s < b))) with
        | none =>
          have hgoal := ih x y q g acc hacc hxt hty
          rw [hpp] at hgoal
          exact hgoal
        | some c =>
          have hgoal := ih x y q (b - z) (some c)
            (fun h => Option.noConfusion h) hxt hty
          rw [hpp] at hgoal
          exact hgoal
      · rw [if_neg hg]
        have hgoal := ih x y q g acc hacc hxt hty
        rw [hpp] at hgoal
        exact hgoal

theorem best_insert_isSome (sel rem : List ℚ) (t : ℚ) (ht : t ∈ rem)
    (p : List ℚ) (x y : ℚ) (q : List ℚ) (hsel : sel = p ++ x :: y :: q)
    (hxt : x < t) (hty : t < y) : best_insert sel rem ≠ none := by
  rw [best_insert, hsel]
  exact best_insert_aux_progress rem t ht p x y q 0 none (fun _ => rfl) hxt hty

theorem best_insert_mem (sel rem : List ℚ) (u : ℚ)
    (h : best_insert sel rem = some u) : u ∈ rem := by
  rw [best_insert] at h
  exact best_insert_aux_mem rem sel 0 none (fun c hc => Option.noConfusion hc) u h

theorem best_insert_nil (sel : List ℚ) : best_insert sel [] = none := by
  rw [best_insert]; exact best_insert_aux_nil sel 0

theorem sorted_bracket :
    ∀ (sel : List ℚ), List.Pairwise (· < ·) sel →
      ∀ (a b t : ℚ), a ∈ sel → b ∈ sel → a < t → t < b → t ∉ sel →
        ∃ (p : List ℚ) (x y : ℚ) (q : List ℚ),
          sel = p ++ x :: y :: q ∧ x < t ∧ t < y := by
  intro sel
  induction sel with
  | nil => intro _ a b t ha; exact absurd ha (List.not_mem_nil a)
  | cons u us ih =>
    intro h a b t ha hb hat htb htn
    have hp := List.pairwise_cons.mp h
    have hut : u < t := by
      rcases List.mem_cons.mp ha with rfl | hmem
      · exact hat
      · exact lt_trans (hp.1 a hmem) hat
    cases us with
    | nil =>
      exfalso
      rcases List.mem_cons.mp hb with rfl | hmem
      · exact lt_irrefl b (lt_trans hut htb)
      · exact absurd hmem (List.not_mem_nil b)
    | cons w ws =>
      by_cases hw : t < w
      · exact ⟨[], u, w, ws, rfl, hut, hw⟩
      · have hwt : w < t := lt_of_le_of_ne (not_lt.mp hw)
          (fun hww => htn (hww ▸ List.mem_cons_of_mem _ (List.mem_cons_self _ _)))
        have hbus : b ∈ w :: ws := by
          rcases List.mem_cons.mp hb with rfl | hmem
          · exact absurd (lt_trans hut htb) (lt_irrefl _)
          · exact hmem
        have htn2 : t ∉ w :: ws := fun hm => htn (List.mem_cons_of_mem _ hm)
        obtain ⟨p, x, y, q, heq, hxt, hty⟩ :=
          ih hp.2 w b t (List.mem_cons_self _ _) hbus hwt htb htn2
        exact ⟨u :: p, x, y, q, by rw [List.cons_append, heq], hxt, hty⟩

theorem fill_loop_subset (n : ℕ) :
    ∀ (fuel : ℕ) (sel rem : List ℚ) (t : ℚ),
      t ∈ fill_loop n fuel sel rem → t ∈ sel ∨ t ∈ rem := by
  intro fuel
  induction fuel with
  | zero => intro sel rem t ht; exact Or.inl ht
  | succ f ih =>
    intro sel rem t ht
    rw [fill_loop] at ht
    by_cases hlen : sel.length < n
    · rw [if_pos hlen] at ht
      cases hb : best_insert sel rem with
      | none => rw [hb] at ht; exact Or.inl ht
      | some u =>
        rw [hb] at ht
        rcases ih _ _ t ht with hs | hr
        · rcases (mem_insertSortedU u sel t).mp hs with rfl | hs2
          · exact Or.inr (best_insert_mem sel rem t hb)
          · exact Or.inl hs2
        · exact Or.inr (List.mem_of_mem_erase hr)
    · rw [if_neg hlen] at ht; exact Or.inl ht

theorem fill_loop_mem_mono (n : ℕ) :
    ∀ (fuel : ℕ) (sel rem : List ℚ) (t : ℚ),
      t ∈ sel → t ∈ fill_loop n fuel sel rem := by
  intro fuel
  induction fuel with
  | zero => intro sel rem t ht; exact ht
  | succ f ih =>
    intro sel rem t ht
    rw [fill_loop]
    by_cases hlen : sel.length < n
    · rw [if_pos hlen]
      cases hb : best_insert sel rem with
      | none => exact ht
      | some u => exact ih _ _ t ((mem_insertSortedU u sel t).mpr (Or.inr ht))
    · rw [if_neg hlen]; exact ht

theorem fill_loop_pairwise (n : ℕ) :
    ∀ (fuel : ℕ) (sel rem : List ℚ), List.Pairwise (· < ·) sel →
      List.Pairwise (· < ·) (fill_loop n fuel sel rem) := by
  intro fuel
  induction fuel with
  | zero => intro sel rem hp; exact hp
  | succ f ih =>
    intro sel rem hp
    rw [fill_loop]
    by_cases hlen : sel.length < n
    · rw [if_pos hlen]
      cases hb : best_insert sel rem with
      | none => exact hp
      | some u => exact ih _ _ (pairwise_insertSortedU u sel hp)
    · rw [if_neg hlen]; exact hp

theorem fill_loop_length (n : ℕ) :
    ∀ (fuel : ℕ) (sel rem : List ℚ),
      rem.length ≤ fuel →
      List.Pairwise (· < ·) sel →
      rem.Nodup →
      (∀ t ∈ rem, t ∉ sel) →
      (∀ t ∈ rem, ∃ a b, a ∈ sel ∧ b ∈ sel ∧ a < t ∧ t < b) →
      (fill_loop n fuel sel rem).length
        = max sel.length (min n (sel.length + rem.length)) := by
  intro fuel
  induction fuel with
  | zero =>
    intro sel rem hf _ _ _ _
    have h0 : rem.length = 0 := Nat.le_zero.mp hf
    rw [fill_loop]
    omega
  | succ f ih =>
    intro sel rem hf hp hnd hd hbr
    rw [fill_loop]
    by_cases hlen : sel.length < n
    · rw [if_pos hlen]
      cases rem with
      | nil =>
        rw [best_insert_nil]
        show sel.length = max sel.length (min n (sel.length + 0))
        omega
      | cons r rs =>
        have hr : r ∈ r :: rs := List.mem_cons_self _ _
        obtain ⟨a, b, ha, hb, har, hrb⟩ := hbr r hr
        obtain ⟨p, x, y, q, hseq, hxr, hry⟩ :=
          sorted_bracket sel hp a b r ha hb har hrb (fun hm => hd r hr hm)
        have hbi := best_insert_isSome sel (r :: rs) r hr p x y q hseq hxr hry
        cases hb2 : best_insert sel (r :: rs) with
        | none => exact absurd hb2 hbi
        | some u =>
          have humem : u ∈ r :: rs := best_insert_mem _ _ _ hb2
          have hunotsel : u ∉ sel := hd u humem
          have hlen1 : (insertSortedU u sel).length = sel.length + 1 :=
            length_insertSortedU u sel hunotsel
          have hlen2 : ((r :: rs).erase u).length = rs.length := by
            rw [List.length_erase_of_mem humem]
            rfl
          have hrec := ih (insertSortedU u sel) ((r :: rs).erase u)
            (by rw [hlen2]; simp only [List.length_cons] at hf; omega)
            (pairwise_insertSortedU u sel hp)
            (hnd.erase u)
            (by
              intro s hs
              have hs2 := (hnd.mem_erase_iff).mp hs
              intro hins
              rcases (mem_insertSortedU u sel s).mp hins with rfl | hsel
              · exact hs2.1 rfl
              · exact hd s hs2.2 hsel)
            (by
              intro s hs
              have hs2 := (hnd.mem_erase_iff).mp hs
              obtain ⟨a2, b2, ha2, hb2m, h1, h2⟩ := hbr s hs2.2
              exact ⟨a2, b2, (mem_insertSortedU u sel a2).mpr (Or.inr ha2),
                (mem_insertSortedU u sel b2).mpr (Or.inr hb2m), h1, h2⟩)
          show (fill_loop n f (insertSortedU u sel) ((r :: rs).erase u)).length
            = max sel.length (min n (sel.length + (r :: rs).length))
          rw [hrec, hlen1, hlen2, List.length_cons]
          omega
    · rw [if_neg hlen]
      omega

theorem exists_not_mem_of_card_lt (M p : List ℚ) (hnd : M.Nodup)
    (h : p.length < M.length) : ∃ m ∈ M, m ∉ p := by
  by_contra hc
  push_neg at hc
  have hsub : M ⊆ p := hc
  have := (List.subperm_of_subset hnd hsub).length_le
  omega

theorem interior_triples_map_mid :
    ∀ (l : List ℚ),
      (interior_triples l).map (fun tr => tr.2.1) = l.tail.dropLast := by
  intro l
  induction l with
  | nil => rfl
  | cons a tail ih =>
    cases tail with
    | nil => rfl
    | cons b tail2 =>
      cases tail2 with
      | nil => rfl
      | cons c rest =>
        rw [interior_triples, List.map_cons, ih]
        show b :: (c :: rest).dropLast = (b :: c :: rest).dropLast
        rw [List.dropLast_cons₂]

theorem interior_triples_mid_mem :
    ∀ (l : List ℚ) (tr : ℚ × ℚ × ℚ), tr ∈ interior_triples l → tr.2.1 ∈ l := by
  intro l
  induction l with
  | nil => intro tr h; exact absurd h (List.not_mem_nil tr)
  | cons a tail ih =>
    intro tr h
    cases tail with
    | nil => exact absurd h (List.not_mem_nil tr)
    | cons b tail2 =>
      cases tail2 with
      | nil => exact absurd h (List.not_mem_nil tr)
      | cons c rest =>
        rw [interior_triples] at h
        rcases List.mem_cons.mp h with rfl | hmem
        · exact List.mem_cons_of_mem _ (List.mem_cons_self _ _)
        · exact List.mem_cons_of_mem _ (ih tr hmem)

theorem worst_removable_mem (p sel : List ℚ) (w : ℚ)
    (h : worst_removable p sel = some w) : w ∈ sel ∧ w ∉ p := by
  rw [worst_removable] at h
  cases hf : (interior_triples sel).filter (fun tr => decide (tr.2.1 ∉ p)) with
  | nil => rw [hf] at h; exact Option.noConfusion h
  | cons tr trs =>
    rw [hf] at h
    rw [Option.some.injEq] at h
    have hm := foldl_pick_mem
      (fun best t => if t.2.2 - t.1 < best.2.2 - best.1 then t else best)
      (fun x y => by by_cases hc : y.2.2 - y.1 < x.2.2 - x.1 <;> simp [hc]) trs tr
    rw [← hf] at hm
    have h2 := List.mem_filter.mp hm
    have h3 := of_decide_eq_true h2.2
    constructor
    · rw [← h]; exact interior_triples_mid_mem sel _ h2.1
    · rw [← h]; exact h3

theorem worst_removable_isSome (p sel : List ℚ) (hnd : sel.Nodup)
    (hlen : p.length + 2 < sel.length) :
    ∃ w, worst_removable p sel = some w := by
  have hmap := interior_triples_map_mid sel
  have hndm : (sel.tail.dropLast).Nodup :=
    ((sel.tail.dropLast_sublist).trans sel.tail_sublist).nodup hnd
  have hlenm : p.length < (sel.tail.dropLast).length := by
    rw [List.length_dropLast, List.length_tail]
    omega
  obtain ⟨m, hmM, hmp⟩ := exists_not_mem_of_card_lt _ p hndm hlenm
  rw [← hmap] at hmM
  obtain ⟨tr, htr, hmid⟩ := List.mem_map.mp hmM
  have htrf : tr ∈ (interior_triples sel).filter (fun tr => decide (tr.2.1 ∉ p)) :=
    List.mem_filter.mpr ⟨htr, by simp only [hmid]; simp [hmp]⟩
  rw [worst_removable]
  cases hf : (interior_triples sel).filter (fun tr => decide (tr.2.1 ∉ p)) with
  | nil => rw [hf] at htrf; exact absurd htrf (List.not_mem_nil tr)
  | cons tr2 trs => exact ⟨_, rfl⟩

theorem trim_loop_subset (n : ℕ) (p : List ℚ) :
    ∀ (fuel : ℕ) (sel : List ℚ) (t : ℚ), t ∈ trim_loop n p fuel sel → t ∈ sel := by
  intro fuel
  induction fuel with
  | zero => intro sel t ht; exact ht
  | succ f ih =>
    intro sel t ht
    rw [trim_loop] at ht
    by_cases h1 : n < sel.length
    · rw [if_pos h1] at ht
      by_cases h2 : (sel.filter (fun s => decide (s ∉ p))).isEmpty = true
      · rw [if_pos h2] at ht; exact ht
      · rw [if_neg h2] at ht
        cases hw : worst_removable p sel with
        | none => rw [hw] at ht; exact ht
        | some w =>
          rw [hw] at ht
          exact List.mem_of_mem_erase (ih _ t ht)
    · rw [if_neg h1] at ht; exact ht

theorem trim_loop_pairwise (n : ℕ) (p : List ℚ) :
    ∀ (fuel : ℕ) (sel : List ℚ), List.Pairwise (· < ·) sel →
      List.Pairwise (· < ·) (trim_loop n p fuel sel) := by
  intro fuel
  induction fuel with
  | zero => intro sel hp; exact hp
  | succ f ih =>
    intro sel hp
    rw [trim_loop]
    by_cases h1 : n < sel.length
    · rw [if_pos h1]
      by_cases h2 : (sel.filter (fun s => decide (s ∉ p))).isEmpty = true
      · rw [if_pos h2]; exact hp
      · rw [if_neg h2]
        cases hw : worst_removable p sel with
        | none => exact hp
        | some w => exact ih _ (List.Pairwise.sublist (List.erase_sublist w sel) hp)
    · rw [if_neg h1]; exact hp

theorem trim_loop_protected (n : ℕ) (p : List ℚ) :
    ∀ (fuel : ℕ) (sel : List ℚ) (t : ℚ), t ∈ sel → t ∈ p →
      t ∈ trim_loop n p fuel sel := by
  intro fuel
  induction fuel with
  | zero => intro sel t ht _; exact ht
  | succ f ih =>
    intro sel t ht htp
    rw [trim_loop]
    by_cases h1 : n < sel.length
    · rw [if_pos h1]
      by_cases h2 : (sel.filter (fun s => decide (s ∉ p))).isEmpty = true
      · rw [if_pos h2]; exact ht
      · rw [if_neg h2]
        cases hw : worst_removable p sel with
        | none => exact ht
        | some w =>
          have hwm := worst_removable_mem p sel w hw
          have hne : t ≠ w := fun hc => hwm.2 (hc ▸ htp)
          exact ih _ t ((List.mem_erase_of_ne hne).mpr ht) htp
    · rw [if_neg h1]; exact ht

theorem trim_loop_length (n : ℕ) (p : List ℚ) (hp7 : p.length ≤ 7) (hn : 11 ≤ n) :
    ∀ (fuel : ℕ) (sel : List ℚ), sel.length ≤ fuel →
      List.Pairwise (· < ·) sel →
      (trim_loop n p fuel sel).length = min n sel.length := by
  intro fuel
  induction fuel with
  | zero =>
    intro sel hf _
    have h0 : sel.length = 0 := Nat.le_zero.mp hf
    rw [trim_loop]
    omega
  | succ f ih =>
    intro sel hf hp
    rw [trim_loop]
    by_cases h1 : n < sel.length
    · rw [if_pos h1]
      have hnd : sel.Nodup := nodup_of_pairwise_lt hp
      obtain ⟨m, hm, hmp⟩ := exists_not_mem_of_card_lt sel p hnd (by omega)
      have hmf : m ∈ sel.filter (fun s => decide (s ∉ p)) :=
        List.mem_filter.mpr ⟨hm, by simp [hmp]⟩
      have hge : ¬ (sel.filter (fun s => decide (s ∉ p))).isEmpty = true := by
        intro hc
        rw [List.isEmpty_iff] at hc
        rw [hc] at hmf
        exact absurd hmf (List.not_mem_nil m)
      rw [if_neg hge]
      obtain ⟨w, hw⟩ := worst_removable_isSome p sel hnd (by omega)
      rw [hw]
      have hwm := worst_removable_mem p sel w hw
      have herase : (sel.erase w).length = sel.length - 1 :=
        List.length_erase_of_mem hwm.1
      have hrec := ih (sel.erase w) (by omega)
        (List.Pairwise.sublist (List.erase_sublist w sel) hp)
      rw [hrec, herase]
      omega
    · rw [if_neg h1]
      omega

theorem fill_loop_nochange (n : ℕ) (fuel : ℕ) (sel rem : List ℚ)
    (h : ¬ sel.length < n) : fill_loop n fuel sel rem = sel := by
  cases fuel with
  | zero => rfl
  | succ f => rw [fill_loop, if_neg h]

theorem trim_loop_nochange (n : ℕ) (p : List ℚ) (fuel : ℕ) (sel : List ℚ)
    (h : ¬ n < sel.length) : trim_loop n p fuel sel = sel := by
  cases fuel with
  | zero => rfl
  | succ f => rw [trim_loop, if_neg h]

theorem getD_mem_of_lt (l : List ℚ) (k : ℕ) (d : ℚ) (h : k < l.length) :
    l.getD k d ∈ l := by
  rw [List.getD_eq_getElem?_getD, List.getElem?_eq_getElem h]
  exact List.getElem_mem h

theorem length_sel_rem (grid sel0 : List ℚ) (hgnd : grid.Nodup)
    (hsnd : sel0.Nodup) (hsub : ∀ t ∈ sel0, t ∈ grid) :
    sel0.length + (grid.filter (fun t => decide (t ∉ sel0))).length
      = grid.length := by
  have hperm := List.filter_append_perm (fun t => decide (t ∈ sel0)) grid
  have hlen := hperm.length_eq
  rw [List.length_append] at hlen
  have hnot : grid.filter (fun a => !(decide (a ∈ sel0)))
      = grid.filter (fun t => decide (t ∉ sel0)) := by
    apply List.filter_congr
    intro t _
    simp [decide_not]
  rw [hnot] at hlen
  have heq : (grid.filter (fun t => decide (t ∈ sel0))).length = sel0.length := by
    have h1 : (grid.filter (fun t => decide (t ∈ sel0))).Nodup :=
      (List.filter_sublist grid).nodup hgnd
    have hsub1 : grid.filter (fun t => decide (t ∈ sel0)) ⊆ sel0 := by
      intro s hs
      exact of_decide_eq_true (List.mem_filter.mp hs).2
    have hsub2 : sel0 ⊆ grid.filter (fun t => decide (t ∈ sel0)) := by
      intro s hs
      exact List.mem_filter.mpr ⟨hsub s hs, by simp [hs]⟩
    have l1 := (List.subperm_of_subset h1 hsub1).length_le
    have l2 := (List.subperm_of_subset hsnd hsub2).length_le
    omega
  omega

theorem standardGrid_pairwise : List.Pairwise (· < ·) standardGrid := by
  norm_num [standardGrid, List.pairwise_cons]

theorem standardGrid_nonneg : ∀ s ∈ standardGrid, (0 : ℚ) ≤ s := by
  norm_num [standardGrid, List.forall_mem_cons]

theorem standardGrid_zero_mem : (0 : ℚ) ∈ standardGrid := by
  simp [standardGrid]

/-- Shared workhorse for claim C8: the generated schedule is strictly
increasing, keeps the protected anchors (0, the snapped tmax, the
substituted terminal anchor), has exactly `min nPoints |grid|` entries,
and stays within the duration window. -/
theorem generate_schedule_props (nPoints : ℕ) (tmax tHalf maxHours : ℚ)
    (h11 : 11 ≤ nPoints) (hmax : (24 : ℚ) ≤ maxHours) :
    List.Pairwise (· < ·) (generate_sampling_schedule nPoints tmax tHalf maxHours)
    ∧ (0 : ℚ) ∈ generate_sampling_schedule nPoints tmax tHalf maxHours
    ∧ snap_to_grid tmax (standardGrid.filter (fun t => decide (t ≤ maxHours)))
        ∈ generate_sampling_schedule nPoints tmax tHalf maxHours
    ∧ (if snap_to_grid (min (3 * tHalf) maxHours)
            (standardGrid.filter (fun t => decide (t ≤ maxHours)))
          ≤ snap_to_grid tmax (standardGrid.filter (fun t => decide (t ≤ maxHours)))
        then (standardGrid.filter (fun t => decide (t ≤ maxHours))).getLastD maxHours
        else snap_to_grid (min (3 * tHalf) maxHours)
            (standardGrid.filter (fun t => decide (t ≤ maxHours))))
        ∈ generate_sampling_schedule nPoints tmax tHalf maxHours
    ∧ (generate_sampling_schedule nPoints tmax tHalf maxHours).length
        = min nPoints (standardGrid.filter (fun t => decide (t ≤ maxHours))).length
    ∧ ∀ t ∈ generate_sampling_schedule nPoints tmax tHalf maxHours, t ≤ maxHours := by
  simp only [generate_sampling_schedule]
  set g := standardGrid.filter (fun t => decide (t ≤ maxHours)) with hg
  set ts := snap_to_grid tmax g with hts
  set bt := g.filter (fun t => decide (0 < t) && decide (t < ts)) with hbt
  set bsel := bt.drop (bt.length - 3) with hbsel
  set aft := g.filter (fun t => decide (ts < t)) with haft
  set asel := aft.take 3 with hasel
  set ls0 := snap_to_grid (min (3 * tHalf) maxHours) g with hls0
  set ls := (if ls0 ≤ ts then g.getLastD maxHours else ls0) with hls
  set es := snap_to_grid maxHours g with hes
  set ee := (if ls < es then [es] else ([] : List ℚ)) with hee
  set tstart := asel.getLastD ts with htstart
  set tc := g.filter (fun t => decide (tstart < t) && decide (t ≤ ls)) with htc
  set base := [tc.getD (0 * tc.length / 4) 0, tc.getD (1 * tc.length / 4) 0,
    tc.getD (2 * tc.length / 4) 0, tc.getD (3 * tc.length / 4) 0] with hbase
  set tsel := (if 4 < tc.length then (if ls ∈ base then base else base.take 3 ++ [ls])
    else tc) with htsel
  set must := ([0, ts] ++ bsel ++ asel ++ [ls] ++ ee ++ tsel) with hmust
  set sel0 := sortedDedup must with hsel0
  set rem0 := g.filter (fun t => decide (t ∉ sel0)) with hrem0
  set fl := fill_loop nPoints rem0.length sel0 rem0 with hfl
  set protL := ([0, ts, ls] ++ bsel.take 2 ++ asel.take 2) with hprotL
  have hgp : List.Pairwise (· < ·) g := by
    rw [hg]
    exact List.Pairwise.sublist (List.filter_sublist standardGrid) standardGrid_pairwise
  have hgnd : g.Nodup := nodup_of_pairwise_lt hgp
  have hgle : ∀ t ∈ g, t ≤ maxHours := by
    intro t ht
    rw [hg] at ht
    exact of_decide_eq_true (List.mem_filter.mp ht).2
  have hgnn : ∀ t ∈ g, 0 ≤ t := by
    intro t ht
    rw [hg] at ht
    exact standardGrid_nonneg t (List.mem_filter.mp ht).1
  have h0g : (0 : ℚ) ∈ g := by
    rw [hg]
    refine List.mem_filter.mpr ⟨standardGrid_zero_mem, ?_⟩
    rw [decide_eq_true_eq]
    linarith
  have hgne : g ≠ [] := List.ne_nil_of_mem h0g
  have hts_g : ts ∈ g := by rw [hts]; exact snap_to_grid_mem tmax g hgne
  have hls0_g : ls0 ∈ g := by rw [hls0]; exact snap_to_grid_mem _ g hgne
  have hes_g : es ∈ g := by rw [hes]; exact snap_to_grid_mem _ g hgne
  have hgmax_g : g.getLastD maxHours ∈ g := getLastD_mem g hgne maxHours
  have hls_g : ls ∈ g := by
    rw [hls]
    split
    · exact hgmax_g
    · exact hls0_g
  have hes_eq : es = g.getLastD maxHours := by
    rw [hes]
    exact snap_to_grid_eq_getLastD maxHours g hgp hgle hgne maxHours
  have hmust_sub : ∀ t ∈ must, t ∈ g := by
    intro t ht
    rw [hmust] at ht
    simp only [List.mem_append, List.mem_cons, List.mem_singleton,
      List.not_mem_nil, or_false] at ht
    rcases ht with ((((h1 | h2) | h3) | h4) | h5) | h6
    · rcases h1 with rfl | rfl
      · exact h0g
      · exact hts_g
    · exact List.mem_of_mem_filter (List.drop_subset _ bt h2)
    · exact List.mem_of_mem_filter (List.take_subset 3 aft h3)
    · rw [h4]; exact hls_g
    · rw [hee] at h5
      by_cases hc : ls < es
      · rw [if_pos hc] at h5
        rw [List.mem_singleton] at h5
        rw [h5]; exact hes_g
      · rw [if_neg hc] at h5
        exact absurd h5 (List.not_mem_nil t)
    · rw [htsel] at h6
      have hbase_sub : ∀ s ∈ base, 4 < tc.length → s ∈ g := by
        intro s hs h4c
        rw [hbase] at hs
        have hmemtc : s ∈ tc := by
          rcases List.mem_cons.mp hs with rfl | hs
          · exact getD_mem_of_lt tc _ 0 (by omega)
          · rcases List.mem_cons.mp hs with rfl | hs
            · exact getD_mem_of_lt tc _ 0 (by omega)
            · rcases List.mem_cons.mp hs with rfl | hs
              · exact getD_mem_of_lt tc _ 0 (by omega)
              · rcases List.mem_cons.mp hs with rfl | hs
                · exact getD_mem_of_lt tc _ 0 (by omega)
                · exact absurd hs (List.not_mem_nil s)
        exact List.mem_of_mem_filter hmemtc
      by_cases h4c : 4 < tc.length
      · rw [if_pos h4c] at h6
        by_cases hmem : ls ∈ base
        · rw [if_pos hmem] at h6
          exact hbase_sub t h6 h4c
        · rw [if_neg hmem] at h6
          rcases List.mem_append.mp h6 with h7 | h7
          · exact hbase_sub t (List.take_subset 3 base h7) h4c
          · rw [List.mem_singleton] at h7
            rw [h7]; exact hls_g
      · rw [if_neg h4c] at h6
        exact List.mem_of_mem_filter h6
  have h0m : (0 : ℚ) ∈ must := by rw [hmust]; simp
  have htsm : ts ∈ must := by rw [hmust]; simp
  have hlsm : ls ∈ must := by rw [hmust]; simp
  have hgmaxm : g.getLastD maxHours ∈ must := by
    by_cases hc : ls0 ≤ ts
    · have hlseq : ls = g.getLastD maxHours := by rw [hls, if_pos hc]
      rw [← hlseq]
      exact hlsm
    · by_cases hc2 : ls < es
      · have heem : es ∈ ee := by rw [hee, if_pos hc2]; exact List.mem_singleton.mpr rfl
        rw [← hes_eq]
        rw [hmust]
        simp only [List.mem_append]
        exact Or.inl (Or.inr heem)
      · have h1 : ls ≤ g.getLastD maxHours :=
          le_getLastD_of_sorted g hgp maxHours ls hls_g
        have h4 : g.getLastD maxHours ≤ ls := by
          rw [← hes_eq]; exact not_lt.mp hc2
        rw [le_antisymm h4 h1]
        exact hlsm
  have hsel0p : List.Pairwise (· < ·) sel0 := by
    rw [hsel0]; exact pairwise_sortedDedup must
  have hsel0nd : sel0.Nodup := nodup_of_pairwise_lt hsel0p
  have hsel0_iff : ∀ t : ℚ, t ∈ sel0 ↔ t ∈ must := by
    intro t; rw [hsel0]; exact mem_sortedDedup must t
  have hsel0_sub : ∀ t ∈ sel0, t ∈ g := fun t ht => hmust_sub t ((hsel0_iff t).mp ht)
  have h0sel : (0 : ℚ) ∈ sel0 := (hsel0_iff 0).mpr h0m
  have htssel : ts ∈ sel0 := (hsel0_iff ts).mpr htsm
  have hlssel : ls ∈ sel0 := (hsel0_iff ls).mpr hlsm
  have hgmaxsel : g.getLastD maxHours ∈ sel0 := (hsel0_iff _).mpr hgmaxm
  have hrem0p : List.Pairwise (· < ·) rem0 := by
    rw [hrem0]; exact List.Pairwise.sublist (List.filter_sublist g) hgp
  have hrem0nd : rem0.Nodup := nodup_of_pairwise_lt hrem0p
  have hrem0_disj : ∀ t ∈ rem0, t ∉ sel0 := by
    intro t ht
    rw [hrem0] at ht
    exact of_decide_eq_true (List.mem_filter.mp ht).2
  have hrem0_g : ∀ t ∈ rem0, t ∈ g := by
    intro t ht
    rw [hrem0] at ht
    exact (List.mem_filter.mp ht).1
  have hbrack : ∀ t ∈ rem0, ∃ a b, a ∈ sel0 ∧ b ∈ sel0 ∧ a < t ∧ t < b := by
    intro t ht
    refine ⟨0, g.getLastD maxHours, h0sel, hgmaxsel, ?_, ?_⟩
    · have h1 : 0 ≤ t := hgnn t (hrem0_g t ht)
      have h2 : t ≠ 0 := fun hc => hrem0_disj t ht (hc ▸ h0sel)
      exact lt_of_le_of_ne h1 (Ne.symm h2)
    · have h1 : t ≤ g.getLastD maxHours :=
        le_getLastD_of_sorted g hgp maxHours t (hrem0_g t ht)
      have h2 : t ≠ g.getLastD maxHours := fun hc => hrem0_disj t ht (hc ▸ hgmaxsel)
      exact lt_of_le_of_ne h1 h2
  have hfl_p : List.Pairwise (· < ·) fl := by
    rw [hfl]; exact fill_loop_pairwise nPoints rem0.length sel0 rem0 hsel0p
  have hfl_len : fl.length
      = max sel0.length (min nPoints (sel0.length + rem0.length)) := by
    rw [hfl]
    exact fill_loop_length nPoints rem0.length sel0 rem0 (le_refl _)
      hsel0p hrem0nd hrem0_disj hbrack
  have hsum : sel0.length + rem0.length = g.length := by
    rw [hrem0]
    exact length_sel_rem g sel0 hgnd hsel0nd hsel0_sub
  have hsel_le_g : sel0.length ≤ g.length :=
    (List.subperm_of_subset hsel0nd hsel0_sub).length_le
  have hp7 : protL.length ≤ 7 := by
    rw [hprotL]
    simp only [List.length_append, List.length_cons, List.length_take,
      List.length_nil]
    omega
  have h0p : (0 : ℚ) ∈ protL := by rw [hprotL]; simp
  have htsp : ts ∈ protL := by rw [hprotL]; simp
  have hlsp : ls ∈ protL := by rw [hprotL]; simp
  have h0fl : (0 : ℚ) ∈ fl := by
    rw [hfl]; exact fill_loop_mem_mono nPoints rem0.length sel0 rem0 0 h0sel
  have htsfl : ts ∈ fl := by
    rw [hfl]; exact fill_loop_mem_mono nPoints rem0.length sel0 rem0 ts htssel
  have hlsfl : ls ∈ fl := by
    rw [hfl]; exact fill_loop_mem_mono nPoints rem0.length sel0 rem0 ls hlssel
  refine ⟨?_, ?_, ?_, ?_, ?_, ?_⟩
  · exact trim_loop_pairwise nPoints protL fl.length fl hfl_p
  · exact trim_loop_protected nPoints protL fl.length fl 0 h0fl h0p
  · exact trim_loop_protected nPoints protL fl.length fl ts htsfl htsp
  · exact trim_loop_protected nPoints protL fl.length fl ls hlsfl hlsp
  · rw [trim_loop_length nPoints protL hp7 h11 fl.length fl (le_refl _) hfl_p,
      hfl_len, hsum]
    rcases le_total nPoints g.length with hc | hc
    · rw [min_eq_left hc, min_eq_left (le_max_right _ _)]
    · rw [min_eq_right hc, max_eq_right hsel_le_g, min_eq_right hc]
  · intro t ht
    have h1 := trim_loop_subset nPoints protL fl.length fl t ht
    rw [hfl] at h1
    rcases fill_loop_subset nPoints rem0.length sel0 rem0 t h1 with h | h
    · exact hgle t (hsel0_sub t h)
    · exact hgle t (hrem0_g t h)

theorem snap_fold_self (v : ℚ) :
    ∀ (gs : List ℚ) (g : ℚ), (g = v ∨ v ∈ gs) →
      gs.foldl (fun best t => if |t - v| < |best - v| then t else best) g = v := by
  intro gs
  induction gs with
  | nil =>
    intro g hg
    rcases hg with rfl | hm
    · rfl
    · cases hm
  | cons t ts ih =>
    intro g hg
    simp only [List.foldl_cons]
    apply ih
    rcases hg with rfl | hm
    · left
      rw [if_neg]
      rw [sub_self, abs_zero]
      exact not_lt.mpr (abs_nonneg _)
    · rcases List.mem_cons.mp hm with rfl | hm2
      · left
        by_cases hc : |v - v| < |g - v|
        · rw [if_pos hc]
        · rw [if_neg hc]
          have h0 : |g - v| ≤ 0 := by
            have h1 := not_lt.mp hc
            rwa [sub_self, abs_zero] at h1
          have h2 : g - v = 0 := abs_eq_zero.mp (le_antisymm h0 (abs_nonneg _))
          linarith
      · right; exact hm2

theorem snap_to_grid_self (v : ℚ) (grid : List ℚ) (hv : v ∈ grid) :
    snap_to_grid v grid = v := by
  cases grid with
  | nil => cases hv
  | cons g gs =>
    rw [snap_to_grid]
    rcases List.mem_cons.mp hv with rfl | hm
    · exact snap_fold_self v gs v (Or.inl rfl)
    · exact snap_fold_self v gs g (Or.inr hm)

/-- The candidate grid truncated at a 24-hour window. -/
theorem grid24_eq : standardGrid.filter (fun t => decide (t ≤ (24 : ℚ)))
    = [0, 0.25, 0.5, 0.75, 1, 1.25, 1.5, 2, 2.5, 3, 4, 5, 6, 8, 10, 12,
       16, 20, 24] := by
  norm_num [standardGrid, List.filter_cons]

theorem C8aux_schedule_eval : generate_sampling_schedule 11 6 (1/2) 24
    = [0, 3, 4, 5, 6, 8, 10, 12, 16, 20, 24] := by
  have hmin : min (3 * (1/2 : ℚ)) 24 = 3/2 := by norm_num
  have hs6 : snap_to_grid 6
      [(0:ℚ), 0.25, 0.5, 0.75, 1, 1.25, 1.5, 2, 2.5, 3, 4, 5, 6, 8, 10, 12,
       16, 20, 24] = 6 :=
    snap_to_grid_self _ _ (by norm_num)
  have hs32 : snap_to_grid (3/2 : ℚ)
      [(0:ℚ), 0.25, 0.5, 0.75, 1, 1.25, 1.5, 2, 2.5, 3, 4, 5, 6, 8, 10, 12,
       16, 20, 24] = 3/2 :=
    snap_to_grid_self _ _ (by norm_num)
  have hs24 : snap_to_grid (24 : ℚ)
      [(0:ℚ), 0.25, 0.5, 0.75, 1, 1.25, 1.5, 2, 2.5, 3, 4, 5, 6, 8, 10, 12,
       16, 20, 24] = 24 :=
    snap_to_grid_self _ _ (by norm_num)
  simp only [generate_sampling_schedule]
  rw [grid24_eq, hmin, hs6, hs32, hs24]
  norm_num [List.filter_cons, sortedDedup, insertSortedU, List.getLastD_cons,
    Bool.and_eq_true, decide_eq_true_eq]
  have hfill : ∀ (fuel : ℕ) (rem : List ℚ),
      fill_loop 11 fuel [(0:ℚ), 3, 4, 5, 6, 8, 10, 12, 16, 20, 24] rem
        = [(0:ℚ), 3, 4, 5, 6, 8, 10, 12, 16, 20, 24] :=
    fun fuel rem => fill_loop_nochange 11 fuel _ rem (by norm_num)
  rw [hfill]
  have htrim : ∀ (fuel : ℕ),
      trim_loop 11 [(0:ℚ), 6, 24, 3, 4, 8, 10] fuel
        [(0:ℚ), 3, 4, 5, 6, 8, 10, 12, 16, 20, 24]
        = [(0:ℚ), 3, 4, 5, 6, 8, 10, 12, 16, 20, 24] :=
    fun fuel => trim_loop_nochange 11 _ fuel _ (by norm_num)
  rw [htrim]

/-- C8 (amended): for every generated sampling schedule with a point budget of
at least 11 and a window of at least 24 h, the schedule is strictly
increasing, contains time 0, contains the grid point nearest tmax, contains
the substituted terminal anchor (the grid point nearest min(3·t_half,
max_hours) when that snap exceeds the snapped tmax, otherwise the last grid
point of the window), its length is min(n_points, grid size) — not always
n_points — and every value lies within the window. -/
theorem C8_schedule_shape (nPoints : ℕ) (tmax tHalf maxHours : ℚ)
    (h11 : 11 ≤ nPoints) (hmax : (24 : ℚ) ≤ maxHours) :
    List.Pairwise (· < ·) (generate_sampling_schedule nPoints tmax tHalf maxHours)
    ∧ (0 : ℚ) ∈ generate_sampling_schedule nPoints tmax tHalf maxHours
    ∧ snap_to_grid tmax (standardGrid.filter (fun t => decide (t ≤ maxHours)))
        ∈ generate_sampling_schedule nPoints tmax tHalf maxHours
    ∧ (if snap_to_grid (min (3 * tHalf) maxHours)
            (standardGrid.filter (fun t => decide (t ≤ maxHours)))
          ≤ snap_to_grid tmax (standardGrid.filter (fun t => decide (t ≤ maxHours)))
        then (standardGrid.filter (fun t => decide (t ≤ maxHours))).getLastD maxHours
        else snap_to_grid (min (3 * tHalf) maxHours)
            (standardGrid.filter (fun t => decide (t ≤ maxHours))))
        ∈ generate_sampling_schedule nPoints tmax tHalf maxHours
    ∧ (generate_sampling_schedule nPoints tmax tHalf maxHours).length
        = min nPoints (standardGrid.filter (fun t => decide (t ≤ maxHours))).length
    ∧ ∀ t ∈ generate_sampling_schedule nPoints tmax tHalf maxHours, t ≤ maxHours :=
  generate_schedule_props nPoints tmax tHalf maxHours h11 hmax

/-- Witness for C8 at n_points=12, tmax=2 h, t_half=8 h, 48-hour window. -/
theorem C8_schedule_shape_witness :
    List.Pairwise (· < ·) (generate_sampling_schedule 12 2 8 48)
    ∧ (0 : ℚ) ∈ generate_sampling_schedule 12 2 8 48
    ∧ snap_to_grid 2 (standardGrid.filter (fun t => decide (t ≤ (48 : ℚ))))
        ∈ generate_sampling_schedule 12 2 8 48
    ∧ (if snap_to_grid (min (3 * (8 : ℚ)) 48)
            (standardGrid.filter (fun t => decide (t ≤ (48 : ℚ))))
          ≤ snap_to_grid 2 (standardGrid.filter (fun t => decide (t ≤ (48 : ℚ))))
        then (standardGrid.filter (fun t => decide (t ≤ (48 : ℚ)))).getLastD 48
        else snap_to_grid (min (3 * (8 : ℚ)) 48)
            (standardGrid.filter (fun t => decide (t ≤ (48 : ℚ)))))
        ∈ generate_sampling_schedule 12 2 8 48
    ∧ (generate_sampling_schedule 12 2 8 48).length
        = min 12 (standardGrid.filter (fun t => decide (t ≤ (48 : ℚ)))).length
    ∧ ∀ t ∈ generate_sampling_schedule 12 2 8 48, t ≤ (48 : ℚ) :=
  C8_schedule_shape 12 2 8 48 (by norm_num) (by norm_num)

/-- C8 counterexample: at n_points=11, tmax=6 h, t_half=0.5 h in a 24-hour
window, the grid point nearest min(3·t_half, max_hours) is 1.5 h, yet the
schedule does not contain it (the code replaces a terminal anchor at or
before the snapped tmax by the final grid point); and at n_points=20 with a
24-hour window the schedule has only 19 entries (the grid has only 19
candidates), so its length is not the requested point count. -/
theorem C8_schedule_counterexample :
    (snap_to_grid (min (3 * (1/2 : ℚ)) 24)
        (standardGrid.filter (fun t => decide (t ≤ (24 : ℚ)))) = 3/2
      ∧ (3/2 : ℚ) ∉ generate_sampling_schedule 11 6 (1/2) 24)
    ∧ (generate_sampling_schedule 20 1 2 24).length ≠ 20 := by
  refine ⟨⟨?_, ?_⟩, ?_⟩
  · rw [grid24_eq]
    have hmin : min (3 * (1/2 : ℚ)) 24 = 3/2 := by norm_num
    rw [hmin]
    exact snap_to_grid_self _ _ (by norm_num)
  · rw [C8aux_schedule_eval]
    norm_num
  · have h := (generate_schedule_props 20 1 2 24 (by norm_num) (by norm_num)).2.2.2.2.1
    rw [grid24_eq] at h
    rw [h]
    norm_num
